import Mathlib

/-!
# Request-scoped logging middlewares: a shallow embedding

Source packages: `request_ulid` (`RequestID`, `GetReqID`) and `logr`
(`Logger.NewLogEntry`, `getIP`, `appendGeoData`, `LogrEntry.Write`,
`LogrEntry.Panic`, `GetLogEntry`, `LogEntrySetField`, `LogEntrySetFields`).

Conventions of the embedding:

* Go strings and byte slices are sequences of characters (well-formed text).
* `interface{}` values are the type `Any`.
* `*LogrEntry` pointers are addresses into `World.heap`; an address outside the
  heap is the nil pointer, and dereferencing it is the run-time panic
  `GoPanic.nilDereference`.
* The `logr.Logger` handle is the sequence of arguments it has accumulated through
  `WithValues`, each call adding its slice unchanged; `Info` hands one record, with
  that sequence, to the sink, and `World.sink` is the sequence of records handed over
  so far. What the sink does with a record lies outside the repository.
* Library functions whose result the code only branches on (`net.SplitHostPort`,
  `net.ParseIP`, the geo database, the ULID generator, `fmt` on non-strings)
  are parameters.
-/

namespace Middlewares

/-! ## `float64` -/

/-- A finite `float64`: the number `mant * 2 ^ exp`, with `mant` odd, or `0 * 2 ^ 0`. -/
structure Float64 where
  mant : Int
  exp : Int
  deriving DecidableEq, Repr

/-- The rational number a finite `float64` stands for. -/
def Float64.toRat (x : Float64) : ℚ := x.mant * 2 ^ x.exp

/-- Nearest integer to `n / d`, a tie going to the even neighbour. -/
def roundHalfEven (n d : Nat) : Nat :=
  let q := n / d
  let r := n % d
  if 2 * r < d then q
  else if d < 2 * r then q + 1
  else if q % 2 = 0 then q else q + 1

/-- Binary logarithm, rounded down, by at most `fuel` halvings. -/
def log2Aux : Nat → Nat → Nat
  | 0, _ => 0
  | fuel + 1, n => if 2 ≤ n then log2Aux fuel (n / 2) + 1 else 0

/-- Binary logarithm of a natural number, rounded down (`0` at `0`). -/
def log2 (n : Nat) : Nat := log2Aux n n

/-- Binary logarithm of the positive fraction `n / d`, rounded down. -/
def floorLog2 (n d : Nat) : Int :=
  let e0 : Int := (log2 n : Int) - (log2 d : Int)
  let below : Bool :=
    if 0 ≤ e0 then decide (n < d * 2 ^ e0.toNat) else decide (n * 2 ^ (-e0).toNat < d)
  if below then e0 - 1 else e0

/-- Number of trailing zero bits, by at most `fuel` halvings. -/
def trailingZerosAux : Nat → Nat → Nat
  | 0, _ => 0
  | fuel + 1, m => if m % 2 = 0 then trailingZerosAux fuel (m / 2) + 1 else 0

/-- Number of trailing zero bits of a positive natural number. -/
def trailingZeros (m : Nat) : Nat := trailingZerosAux (log2 m) m

/-- The `float64` with magnitude `m * 2 ^ e` in lowest terms. -/
def Float64.canonical (neg : Bool) (m : Nat) (e : Int) : Float64 :=
  if m = 0 then ⟨0, 0⟩
  else
    let t := trailingZeros m
    ⟨if neg then -((m / 2 ^ t : Nat) : Int) else ((m / 2 ^ t : Nat) : Int), e + t⟩

/-- IEEE 754 binary64 rounding (nearest, ties to even) of the fraction `n / d`, with
sign `neg`: 53 significant bits, the spacing never below `2 ^ (-1074)`. Overflow to
infinity is left out; no `int64` operand reaches it. -/
def roundFloat64 (neg : Bool) (n d : Nat) : Float64 :=
  if n = 0 then ⟨0, 0⟩
  else
    let e := floorLog2 n d
    let qe : Int := max (e - 52) (-1074)
    let m :=
      if 0 ≤ qe then roundHalfEven n (d * 2 ^ qe.toNat)
      else roundHalfEven (n * 2 ^ (-qe).toNat) d
    Float64.canonical neg m qe

/-- The Go conversion `float64(n)` of an integer. -/
def Float64.ofInt (n : Int) : Float64 := roundFloat64 (decide (n < 0)) n.natAbs 1

/-- The Go quotient `x / y` of two finite `float64` values, `y` not zero. -/
def Float64.div (x y : Float64) : Float64 :=
  let k := x.exp - y.exp
  roundFloat64 (decide (x.mant < 0) != decide (y.mant < 0))
    (x.mant.natAbs * 2 ^ k.toNat) (y.mant.natAbs * 2 ^ (-k).toNat)

/-! ## Values -/

/-- A Go `interface{}` value, as far as the middlewares store one in a log field.
`nil` is the nil interface and `other tag` a value of any further dynamic type. -/
inductive Any where
  | nil
  | str (s : String)
  | int (n : Int)
  | float64 (x : Float64)
  | other (tag : Nat)
  deriving DecidableEq

/-- Run-time panics the embedded code can raise. -/
inductive GoPanic where
  | typeAssertion
  | nilDereference
  deriving DecidableEq, Repr

/-! ## `context.Context` -/

/-- Address of a `LogrEntry` in the heap. -/
abbrev Ptr := Nat

/-- The context keys: chi's `middleware.RequestIDKey`, chi's
`middleware.LogEntryCtxKey`, and any other key. -/
inductive CtxKey where
  | RequestIDKey
  | LogEntryCtxKey
  | other (n : Nat)
  deriving DecidableEq, Repr

/-- A value stored in a context: a string, a `*LogrEntry`, a value of another
type that implements chi's `middleware.LogEntry`, or anything else. -/
inductive CtxVal where
  | str (s : String)
  | logrEntry (p : Ptr)
  | otherLogEntry (tag : Nat)
  | other (tag : Nat)
  deriving DecidableEq, Repr

/-- A non-nil `context.Context`: the chain of `WithValue` bindings, innermost first;
the empty chain is `context.Background()`. -/
abbrev Context := List (CtxKey × CtxVal)

/-- The Go call `context.WithValue(ctx, key, val)`. -/
def WithValue (ctx : Context) (key : CtxKey) (val : CtxVal) : Context :=
  (key, val) :: ctx

/-- The Go call `ctx.Value(key)`: the innermost binding of `key`, `none` for the nil
interface. -/
def Context.Value (ctx : Context) (key : CtxKey) : Option CtxVal :=
  ctx.lookup key

/-! ## `net/http` -/

/-- Bytes `textproto` accepts in a header field name (RFC 7230 token characters). -/
def validHeaderFieldByte (c : Char) : Bool :=
  c.isAlphanum ||
    [33, 35, 36, 37, 38, 39, 42, 43, 45, 46, 94, 95, 96, 124, 126].contains c.toNat

/-- The case-mapping loop of `textproto.canonicalMIMEHeaderKey`: upper case at the
start and after each dash, lower case elsewhere. -/
def canonicalLoop : Bool → List Char → List Char
  | _, [] => []
  | upper, c :: cs =>
    let c1 :=
      if upper && decide (97 ≤ c.toNat ∧ c.toNat ≤ 122) then Char.ofNat (c.toNat - 32)
      else if !upper && decide (65 ≤ c.toNat ∧ c.toNat ≤ 90) then Char.ofNat (c.toNat + 32)
      else c
    c1 :: canonicalLoop (c1 = '-') cs

/-- The Go function `textproto.CanonicalMIMEHeaderKey`: a key holding a byte that is
not a token character is returned unchanged. -/
def CanonicalMIMEHeaderKey (s : String) : String :=
  if s.data.all validHeaderFieldByte then String.mk (canonicalLoop true s.data) else s

/-- The Go type `http.Header`: canonical key to the list of its values. -/
abbrev Header := List (String × List String)

/-- The Go method `http.Header.Get`: the first value under the canonical form of
`key`, the empty string when there is none. -/
def Header.Get (h : Header) (key : String) : String :=
  match h.lookup (CanonicalMIMEHeaderKey key) with
  | some (v :: _) => v
  | _ => ""

/-- The Go type `tls.ConnectionState`, of which only presence is observed. -/
structure ConnectionState where
  Version : Nat
  deriving DecidableEq, Repr

/-- The fields of `http.Request` the middlewares read. -/
structure Request where
  Method : String
  Proto : String
  Header : Header
  Host : String
  RemoteAddr : String
  RequestURI : String
  TLS : Option ConnectionState
  ctx : Context
  deriving DecidableEq, Repr

/-- The Go method `r.Context()`. -/
def Request.Context (r : Request) : Middlewares.Context := r.ctx

/-- The Go method `r.WithContext(ctx)`: a copy of the request with the context
replaced. -/
def Request.WithContext (r : Request) (ctx : Middlewares.Context) : Request :=
  { r with ctx := ctx }

/-- The Go method `r.UserAgent()`. -/
def Request.UserAgent (r : Request) : String := r.Header.Get "User-Agent"

/-- An `http.ResponseWriter`, which the middlewares only pass along. -/
structure ResponseWriter where
  id : Nat
  deriving DecidableEq, Repr

/-! ## `logr` handles, entries and the world -/

/-- A `logr.Logger` handle: the keys and values accumulated through `WithValues`,
alternating, in the order they were given. -/
structure LogrLogger where
  values : List Any
  deriving DecidableEq

/-- The Go method `logr.Logger.WithValues`: a new handle with the arguments added,
unchanged, after the accumulated ones. -/
def LogrLogger.WithValues (l : LogrLogger) (keysAndValues : List Any) : LogrLogger :=
  { values := l.values ++ keysAndValues }

/-- Severity of a record. -/
inductive Level where
  | info
  | error
  deriving DecidableEq, Repr

/-- A record handed to the log sink. -/
structure Record where
  level : Level
  msg : String
  fields : List Any
  deriving DecidableEq

/-- The Go type `LogrEntry`. -/
structure LogrEntry where
  log : LogrLogger
  deriving DecidableEq

/-- Mutable state around the code: the entries allocated so far, the records handed
to the sink so far, and how many identifiers the ULID generator has produced. -/
structure World where
  heap : List LogrEntry
  sink : List Record
  ulids : Nat
  deriving DecidableEq

/-- The Go method `logr.Logger.Info` with no extra key/values. -/
def LogrLogger.Info (l : LogrLogger) (msg : String) (s : World) : World :=
  { s with sink := s.sink ++ [{ level := Level.info, msg := msg, fields := l.values }] }

/-- An `http.Handler`: serving a request transforms the world or panics. -/
abbrev Handler := ResponseWriter → Request → World → Except GoPanic World

/-! ## Package `request_ulid` -/

/-- The chi variable `middleware.RequestIDHeader`. -/
def RequestIDHeader : String := "X-Request-Id"

/-- The `RequestID` middleware of `request_ulid/lib.go`. `newULID n` is the string of the
identifier `ulids.MustNew()` returns when `n` identifiers were generated before. The
comment above the source function still describes identifiers of the form
"host.example.com/random-0001"; the body generates a ULID. -/
def RequestID (newULID : Nat → String) (next : Handler) : Handler := fun w r s =>
  let ctx := r.Context
  let requestID := r.Header.Get RequestIDHeader
  let (requestID, s) :=
    if requestID = "" then (newULID s.ulids, { s with ulids := s.ulids + 1 })
    else (requestID, s)
  let ctx := WithValue ctx CtxKey.RequestIDKey (CtxVal.str requestID)
  next w (r.WithContext ctx) s

/-- The function `GetReqID` of `request_ulid/lib.go`; `none` is the nil context. -/
def GetReqID (ctx : Option Context) : String :=
  match ctx with
  | none => ""
  | some ctx =>
    match ctx.Value CtxKey.RequestIDKey with
    | some (CtxVal.str reqID) => reqID
    | _ => ""

/-- The chi function `middleware.GetReqID`, which `NewLogEntry` calls; its body is that of
`GetReqID` above. -/
def middleware.GetReqID (ctx : Option Context) : String :=
  match ctx with
  | none => ""
  | some ctx =>
    match ctx.Value CtxKey.RequestIDKey with
    | some (CtxVal.str reqID) => reqID
    | _ => ""

/-- The chi function `middleware.GetLogEntry`: the value under `LogEntryCtxKey` when it
implements `middleware.LogEntry`, the nil interface otherwise. -/
def middleware.GetLogEntry (r : Request) : Option CtxVal :=
  match r.Context.Value CtxKey.LogEntryCtxKey with
  | some (CtxVal.logrEntry p) => some (CtxVal.logrEntry p)
  | some (CtxVal.otherLogEntry tag) => some (CtxVal.otherLogEntry tag)
  | _ => none

/-! ## `strings` -/

/-- Pieces of a character sequence between occurrences of `sep`. -/
def splitChars (sep : Char) : List Char → List (List Char)
  | [] => [[]]
  | c :: cs =>
    if c = sep then [] :: splitChars sep cs
    else
      match splitChars sep cs with
      | [] => [[c]]
      | h :: t => (c :: h) :: t

/-- The Go function `strings.Split` for a one-character separator. -/
def Split (s : String) (sep : Char) : List String :=
  (splitChars sep s.data).map String.mk

/-- The Go function `unicode.IsSpace`. -/
def isSpace (c : Char) : Bool :=
  let n := c.toNat
  (9 ≤ n && n ≤ 13) || n = 32 || n = 133 || n = 160 || n = 5760 ||
    (8192 ≤ n && n ≤ 8202) || n = 8232 || n = 8233 || n = 8239 || n = 8287 || n = 12288

/-- The Go function `strings.TrimSpace`: leading and trailing white space removed. -/
def TrimSpace (s : String) : String :=
  String.mk ((s.data.dropWhile isSpace).reverse.dropWhile isSpace).reverse

/-! ## `net` and the geo database -/

/-- A non-nil `net.IP`: its bytes. -/
abbrev IP := List Nat

/-- Why `net.SplitHostPort` rejects an address. -/
inductive AddrError where
  | missingPort
  | tooManyColons
  | missingBracket
  | unexpectedOpen
  | unexpectedClose
  deriving DecidableEq, Repr

/-- The two `net` functions `appendGeoData` calls. -/
structure NetLib where
  SplitHostPort : String → Except AddrError (String × String)
  ParseIP : String → Option IP

/-- Index of the first `c` in a character sequence. -/
def indexByte (c : Char) : List Char → Option Nat
  | [] => none
  | x :: xs => if x = c then some 0 else (indexByte c xs).map (· + 1)

/-- Index of the last `c` in a character sequence. -/
def lastIndexByte (c : Char) (s : List Char) : Option Nat :=
  (indexByte c s.reverse).map (fun i => s.length - 1 - i)

/-- The Go function `net.SplitHostPort`. -/
def goSplitHostPort (hostport : String) : Except AddrError (String × String) :=
  let hp := hostport.data
  match lastIndexByte ':' hp with
  | none => Except.error AddrError.missingPort
  | some i =>
    let checked : Except AddrError (List Char × Nat × Nat) :=
      if hp.head? = some '[' then
        match indexByte ']' hp with
        | none => Except.error AddrError.missingBracket
        | some close =>
          if close + 1 = hp.length then Except.error AddrError.missingPort
          else if close + 1 = i then Except.ok ((hp.take close).drop 1, 1, close + 1)
          else if hp[close + 1]? = some ':' then Except.error AddrError.tooManyColons
          else Except.error AddrError.missingPort
      else
        let host := hp.take i
        if (indexByte ':' host).isSome then Except.error AddrError.tooManyColons
        else Except.ok (host, 0, 0)
    match checked with
    | Except.error e => Except.error e
    | Except.ok (host, j, k) =>
      if (indexByte '[' (hp.drop j)).isSome then Except.error AddrError.unexpectedOpen
      else if (indexByte ']' (hp.drop k)).isSome then Except.error AddrError.unexpectedClose
      else Except.ok (String.mk host, String.mk (hp.drop (i + 1)))

/-- One field of a dotted-decimal IPv4 literal: one to three digits, no leading
zero, at most 255. -/
def parseOctet (f : List Char) : Option Nat :=
  if f = [] then none
  else if !f.all Char.isDigit then none
  else if 2 ≤ f.length && f.head? = some '0' then none
  else
    let v := f.foldl (fun acc c => acc * 10 + (c.toNat - 48)) 0
    if 3 < f.length || 255 < v then none else some v

/-- The Go function `net.ParseIP` on dotted-decimal IPv4 literals, giving the 16-byte
form; every other text, IPv6 literals included, gets `none` here. -/
def parseDottedQuad (s : String) : Option IP :=
  match (splitChars '.' s.data).map parseOctet with
  | [some a, some b, some c, some d] => some [0, 0, 0, 0, 0, 0, 0, 0, 0, 0, 255, 255, a, b, c, d]
  | _ => none

/-- The `net` library with `ParseIP` restricted to IPv4 literals. -/
def ipv4Net : NetLib :=
  { SplitHostPort := goSplitHostPort, ParseIP := parseDottedQuad }

/-- The part of a `geoip2.City` record the code reads: `City.Names`,
`Country.IsoCode` and `Location.TimeZone`. -/
structure City where
  CityNames : List (String × String)
  CountryIsoCode : String
  LocationTimeZone : String
  deriving DecidableEq, Repr

/-- A Go map read `m[key]` on a `map[string]string`: the zero value when the key is
absent. -/
def mapIndex (m : List (String × String)) (key : String) : String :=
  (m.lookup key).getD ""

/-- A `*geoip2.Reader`: its `City` method. A reader answers an address its database
does not hold with the zero record and no error; an error comes from a closed reader,
a database of another type or a corrupt database. -/
structure Reader where
  City : IP → Except String City

/-! ## Package `logr` -/

/-- The Go type `Logger` of `logr/lib.go`. -/
structure Logger where
  log : LogrLogger
  geodb : Option Reader

/-- The function `getIP` of `logr/lib.go`. -/
def getIP (r : Request) : String :=
  let forwarded := r.Header.Get "X-FORWARDED-FOR"
  if forwarded ≠ "" then forwarded else r.RemoteAddr

/-- The function `appendGeoData` of `logr/lib.go`; `db = none` is the nil reader. -/
def appendGeoData (net : NetLib) (kvs : List Any) (r : Request) (db : Option Reader) :
    List Any :=
  let addr := getIP r
  let kvs := kvs ++ [Any.str "remote_addr", Any.str addr]
  match db with
  | none => kvs
  | some db =>
    let ips := Split addr ','
    match ips with
    | [] => kvs
    | ip0 :: _ =>
      let ip : Option IP :=
        match net.SplitHostPort (TrimSpace ip0) with
        | Except.ok (host, _) => net.ParseIP host
        | Except.error _ => net.ParseIP (TrimSpace ip0)
      match ip with
      | none => kvs
      | some ip =>
        match db.City ip with
        | Except.error _ => kvs
        | Except.ok record =>
          let kvs := kvs ++ [Any.str "remote_city", Any.str (mapIndex record.CityNames "en")]
          let kvs := kvs ++ [Any.str "remote_country", Any.str record.CountryIsoCode]
          let kvs := kvs ++ [Any.str "remote_tz", Any.str record.LocationTimeZone]
          kvs

/-- The method `Logger.NewLogEntry` of `logr/lib.go`. `now` is the text of
`time.Now().UTC().Format(time.RFC3339)`. The new entry is allocated at the end of the
heap and its address returned. -/
def Logger.NewLogEntry (net : NetLib) (now : String) (l : Logger) (r : Request) (s : World) :
    Ptr × World :=
  let kvs : List Any := []
  let kvs := kvs ++ [Any.str "ts", Any.str now]
  let reqID := middleware.GetReqID (some r.Context)
  let kvs := if reqID ≠ "" then kvs ++ [Any.str "req_id", Any.str reqID] else kvs
  let scheme := if r.TLS ≠ none then "https" else "http"
  let kvs := kvs ++ [Any.str "http_scheme", Any.str scheme]
  let kvs := kvs ++ [Any.str "http_proto", Any.str r.Proto]
  let kvs := kvs ++ [Any.str "http_method", Any.str r.Method]
  let kvs := appendGeoData net kvs r l.geodb
  let kvs := kvs ++ [Any.str "user_agent", Any.str r.UserAgent]
  let kvs := kvs ++ [Any.str "uri", Any.str (scheme ++ "://" ++ r.Host ++ r.RequestURI)]
  let entry : LogrEntry := { log := l.log.WithValues kvs }
  let p : Ptr := s.heap.length
  let s := { s with heap := s.heap ++ [entry] }
  (p, entry.log.Info "request started" s)

/-- The Go conversion `string(b)` of a byte slice. -/
def bytesToString (b : List Char) : String := String.mk b

/-- The Go call `fmt.Sprintf("%+v", v)`: a string is printed as it is and the nil
interface as `<nil>`; `render` prints every other value. -/
def SprintfPlusV (render : Any → String) (v : Any) : String :=
  match v with
  | Any.str s => s
  | Any.nil => "<nil>"
  | v => render v

/-- The Go method `time.Duration.Nanoseconds`: a duration is its count of
nanoseconds. -/
def Nanoseconds (elapsed : Int) : Int := elapsed

/-- The method `LogrEntry.Write` of `logr/lib.go`, on the entry at address `l`. -/
def LogrEntry.Write (l : Ptr) (status bytes : Int) (_header : Header) (elapsed : Int)
    (_extra : Any) (s : World) : Except GoPanic World :=
  match s.heap[l]? with
  | none => Except.error GoPanic.nilDereference
  | some e =>
    let log := e.log.WithValues
      [Any.str "resp_status", Any.int status,
       Any.str "resp_bytes_length", Any.int bytes,
       Any.str "resp_elapsed_ms",
       Any.float64 (Float64.div (Float64.ofInt (Nanoseconds elapsed)) (Float64.ofInt 1000000))]
    let s := { s with heap := s.heap.set l { log := log } }
    Except.ok (log.Info "request complete" s)

/-- The method `LogrEntry.Panic` of `logr/lib.go`, on the entry at address `l`. -/
def LogrEntry.Panic (render : Any → String) (l : Ptr) (v : Any) (stack : List Char)
    (s : World) : Except GoPanic World :=
  match s.heap[l]? with
  | none => Except.error GoPanic.nilDereference
  | some e =>
    let log := e.log.WithValues
      [Any.str "stack", Any.str (bytesToString stack),
       Any.str "panic", Any.str (SprintfPlusV render v)]
    Except.ok { s with heap := s.heap.set l { log := log } }

/-- The function `GetLogEntry` of `logr/lib.go`: the unchecked assertion
`middleware.GetLogEntry(r).(*LogrEntry)` followed by the read of `entry.log`. -/
def GetLogEntry (r : Request) (s : World) : Except GoPanic LogrLogger :=
  match middleware.GetLogEntry r with
  | some (CtxVal.logrEntry p) =>
    match s.heap[p]? with
    | none => Except.error GoPanic.nilDereference
    | some entry => Except.ok entry.log
  | _ => Except.error GoPanic.typeAssertion

/-- The function `LogEntrySetField` of `logr/lib.go`. -/
def LogEntrySetField (r : Request) (key : String) (value : Any) (s : World) :
    Except GoPanic World :=
  match r.Context.Value CtxKey.LogEntryCtxKey with
  | some (CtxVal.logrEntry p) =>
    match s.heap[p]? with
    | none => Except.error GoPanic.nilDereference
    | some entry =>
      Except.ok { s with heap := s.heap.set p { log := entry.log.WithValues [Any.str key, value] } }
  | _ => Except.ok s

/-- The function `LogEntrySetFields` of `logr/lib.go`. -/
def LogEntrySetFields (r : Request) (keysAndValues : List Any) (s : World) :
    Except GoPanic World :=
  match r.Context.Value CtxKey.LogEntryCtxKey with
  | some (CtxVal.logrEntry p) =>
    match s.heap[p]? with
    | none => Except.error GoPanic.nilDereference
    | some entry =>
      Except.ok { s with heap := s.heap.set p { log := entry.log.WithValues keysAndValues } }
  | _ => Except.ok s

/-! ## Reading a field list -/

/-- The keys of an alternating key/value list: its elements at even positions. -/
def fieldKeys : List Any → List Any
  | k :: _ :: rest => k :: fieldKeys rest
  | [k] => [k]
  | [] => []

/-! ## Sample data -/

/-- A geo database that holds the address 203.0.113.5 only; for every other address
the lookup finds nothing and, as in geoip2, returns the zero record without error. -/
def seattleDB : Reader :=
  { City := fun ip =>
      if ip = [0, 0, 0, 0, 0, 0, 0, 0, 0, 0, 255, 255, 203, 0, 113, 5] then
        Except.ok
          { CityNames := [("en", "Seattle")], CountryIsoCode := "US",
            LocationTimeZone := "America/Los_Angeles" }
      else Except.ok { CityNames := [], CountryIsoCode := "", LocationTimeZone := "" } }

/-- A reader that was closed: every lookup returns an error. -/
def closedDB : Reader :=
  { City := fun _ => Except.error "cannot call Lookup on a closed database" }

/-- A plain-HTTP request from 10.0.0.9:51000 with the given headers and context. -/
def sampleRequest (header : Header) (ctx : Context) : Request :=
  { Method := "GET", Proto := "HTTP/1.1", Header := header, Host := "example.com",
    RemoteAddr := "10.0.0.9:51000", RequestURI := "/a?b=1", TLS := none, ctx := ctx }

/-- A handler that allocates nothing and logs its request identifier. -/
def echoHandler : Handler := fun _ r s =>
  Except.ok ((LogrLogger.mk [Any.str "seen", Any.str (GetReqID (some r.Context))]).Info "next" s)

/-! ## Lemmas on `float64` rounding -/

theorem trailingZerosAux_dvd (fuel m : Nat) : 2 ^ trailingZerosAux fuel m ∣ m := by
  induction fuel generalizing m with
  | zero => simp [trailingZerosAux]
  | succ fuel ih =>
    simp only [trailingZerosAux]
    split
    · rename_i h
      rw [pow_succ]
      have := ih (m / 2)
      have h2 : m / 2 * 2 = m := by omega
      calc 2 ^ trailingZerosAux fuel (m / 2) * 2 ∣ m / 2 * 2 :=
            Nat.mul_dvd_mul this (dvd_refl 2)
        _ = m := h2
    · simp

theorem canonical_toRat (neg : Bool) (m : Nat) (e : Int) :
    (Float64.canonical neg m e).toRat = (if neg then -1 else 1) * (m : ℚ) * 2 ^ e := by
  unfold Float64.canonical
  split
  · rename_i h
    simp [Float64.toRat, h]
  · have hd : 2 ^ trailingZeros m ∣ m := trailingZerosAux_dvd _ m
    generalize trailingZeros m = t at hd ⊢
    obtain ⟨c, hc⟩ := hd
    have hdiv : m / 2 ^ t = c := by
      rw [hc, Nat.mul_div_cancel_left _ (by positivity)]
    have hm : (m : ℚ) = 2 ^ t * c := by
      rw [hc]
      push_cast
      ring
    simp only [Float64.toRat, hdiv]
    rw [hm, zpow_add₀ (by norm_num : (2 : ℚ) ≠ 0), zpow_natCast]
    cases neg <;> simp <;> ring

theorem roundHalfEven_near (n d : Nat) (hd : 0 < d) :
    |(roundHalfEven n d : ℚ) - (n : ℚ) / d| ≤ 1 / 2 := by
  have hdq : (0 : ℚ) < d := by exact_mod_cast hd
  have hn : (n : ℚ) = d * (n / d : ℕ) + (n % d : ℕ) := by
    exact_mod_cast (Nat.div_add_mod n d).symm
  have hr : n % d < d := Nat.mod_lt n hd
  have hrq : ((n % d : ℕ) : ℚ) < d := by exact_mod_cast hr
  have hr0 : (0 : ℚ) ≤ ((n % d : ℕ) : ℚ) := by positivity
  have hquot : (n : ℚ) / d = (n / d : ℕ) + ((n % d : ℕ) : ℚ) / d := by
    rw [hn]
    field_simp
    ring
  rw [abs_le]
  unfold roundHalfEven
  simp only []
  split
  · rename_i h
    have hq : (2 : ℚ) * ((n % d : ℕ) : ℚ) < d := by exact_mod_cast h
    rw [hquot]
    constructor
    · have : ((n % d : ℕ) : ℚ) / d ≤ 1 / 2 := by
        rw [div_le_iff₀ hdq]; linarith
      linarith
    · have : 0 ≤ ((n % d : ℕ) : ℚ) / d := by positivity
      linarith
  · split
    · rename_i h1 h
      have hq : (d : ℚ) < 2 * ((n % d : ℕ) : ℚ) := by exact_mod_cast h
      rw [hquot]
      push_cast
      constructor
      · have : ((n % d : ℕ) : ℚ) / d ≤ 1 := by
          rw [div_le_iff₀ hdq]; linarith
        linarith
      · have : 1 / 2 ≤ ((n % d : ℕ) : ℚ) / d := by
          rw [le_div_iff₀ hdq]; linarith
        linarith
    · rename_i h1 h2
      have heq : 2 * (n % d) = d := by omega
      have hq : (2 : ℚ) * ((n % d : ℕ) : ℚ) = d := by exact_mod_cast heq
      have hhalf : ((n % d : ℕ) : ℚ) / d = 1 / 2 := by
        rw [div_eq_iff (ne_of_gt hdq)]; linarith
      rw [hquot, hhalf]
      split
      · constructor <;> linarith
      · push_cast
        constructor <;> linarith


theorem roundFloat64_near (neg : Bool) (n d : Nat) (hd : 0 < d) :
    |(roundFloat64 neg n d).toRat - (if neg then -1 else 1) * ((n : ℚ) / d)|
      ≤ 2 ^ (max (floorLog2 n d - 52) (-1074)) / 2 := by
  have hdq : (0 : ℚ) < d := by exact_mod_cast hd
  have hsign : ∀ a b : ℚ, |(if neg then -1 else 1) * a - (if neg then -1 else 1) * b| = |a - b| := by
    intro a b
    cases neg
    · simp
    · simp only [if_true]
      rw [show (-1 : ℚ) * a - -1 * b = -(a - b) by ring, abs_neg]
  unfold roundFloat64
  split
  · rename_i h
    subst h
    simp only [Float64.toRat]
    simp
    positivity
  · simp only []
    generalize max (floorLog2 n d - 52) (-1074) = qe
    rw [canonical_toRat, mul_assoc, hsign]
    split
    · rename_i hq
      obtain ⟨k, rfl⟩ := Int.eq_ofNat_of_zero_le hq
      simp only [Int.toNat_ofNat, zpow_natCast]
      have hk : (0 : ℚ) < 2 ^ k := by positivity
      have := roundHalfEven_near n (d * 2 ^ k) (by positivity)
      push_cast at this
      have h2 : (roundHalfEven n (d * 2 ^ k) : ℚ) * 2 ^ k - n / d
          = ((roundHalfEven n (d * 2 ^ k) : ℚ) - n / (d * 2 ^ k)) * 2 ^ k := by
        field_simp
        ring
      rw [h2, abs_mul, abs_of_pos hk]
      calc |(roundHalfEven n (d * 2 ^ k) : ℚ) - n / (d * 2 ^ k)| * 2 ^ k
          ≤ 1 / 2 * 2 ^ k := by gcongr
        _ = 2 ^ k / 2 := by ring
    · rename_i hq
      obtain ⟨k, hk⟩ : ∃ k : ℕ, qe = -(k : ℤ) := ⟨(-qe).toNat, by omega⟩
      subst hk
      simp only [neg_neg, Int.toNat_ofNat, zpow_neg, zpow_natCast]
      have hk : (0 : ℚ) < 2 ^ k := by positivity
      have := roundHalfEven_near (n * 2 ^ k) d hd
      push_cast at this
      have h2 : (roundHalfEven (n * 2 ^ k) d : ℚ) * (2 ^ k)⁻¹ - n / d
          = ((roundHalfEven (n * 2 ^ k) d : ℚ) - n * 2 ^ k / d) * (2 ^ k)⁻¹ := by
        field_simp
        ring
      rw [h2, abs_mul, abs_of_pos (by positivity : (0 : ℚ) < (2 ^ k)⁻¹)]
      calc |(roundHalfEven (n * 2 ^ k) d : ℚ) - n * 2 ^ k / d| * (2 ^ k)⁻¹
          ≤ 1 / 2 * (2 ^ k)⁻¹ := by gcongr
        _ = (2 ^ k)⁻¹ / 2 := by ring

theorem log2Aux_spec (fuel n : Nat) (hn : 0 < n) (hf : n ≤ fuel) :
    2 ^ log2Aux fuel n ≤ n ∧ n < 2 ^ (log2Aux fuel n + 1) := by
  induction fuel generalizing n with
  | zero => omega
  | succ fuel ih =>
    simp only [log2Aux]
    split
    · rename_i h
      have := ih (n / 2) (by omega) (by omega)
      rw [pow_succ, pow_succ]
      constructor <;> omega
    · simp
      omega

theorem log2_spec (n : Nat) (hn : 0 < n) : 2 ^ log2 n ≤ n ∧ n < 2 ^ (log2 n + 1) :=
  log2Aux_spec n n hn (le_refl n)


theorem floorLog2_spec (n d : Nat) (hn : 0 < n) (hd : 0 < d) :
    (2 : ℚ) ^ floorLog2 n d ≤ (n : ℚ) / d ∧ (n : ℚ) / d < 2 ^ (floorLog2 n d + 1) := by
  have hdq : (0 : ℚ) < d := by exact_mod_cast hd
  have h2 : (2 : ℚ) ≠ 0 := by norm_num
  obtain ⟨ha1, ha2⟩ := log2_spec n hn
  obtain ⟨hb1, hb2⟩ := log2_spec d hd
  have ha1q : (2 : ℚ) ^ (log2 n) ≤ n := by exact_mod_cast ha1
  have ha2q : (n : ℚ) < 2 ^ (log2 n + 1) := by exact_mod_cast ha2
  have hb1q : (2 : ℚ) ^ (log2 d) ≤ d := by exact_mod_cast hb1
  have hb2q : (d : ℚ) < 2 ^ (log2 d + 1) := by exact_mod_cast hb2
  have hpa : (0 : ℚ) < 2 ^ (log2 n) := by positivity
  have hpb : (0 : ℚ) < 2 ^ (log2 d) := by positivity
  have hlow : (2 : ℚ) ^ ((log2 n : ℤ) - (log2 d : ℤ) - 1) ≤ (n : ℚ) / d := by
    rw [le_div_iff₀ hdq, zpow_sub₀ h2, zpow_sub₀ h2, zpow_natCast, zpow_natCast, zpow_one]
    rw [div_div, div_mul_eq_mul_div, div_le_iff₀ (by positivity)]
    have : (d : ℚ) ≤ 2 ^ (log2 d) * 2 := by
      rw [pow_succ] at hb2q
      exact le_of_lt hb2q
    nlinarith
  have hhigh : (n : ℚ) / d < 2 ^ ((log2 n : ℤ) - (log2 d : ℤ) + 1) := by
    rw [div_lt_iff₀ hdq, zpow_add₀ h2, zpow_sub₀ h2, zpow_natCast, zpow_natCast, zpow_one]
    rw [pow_succ] at ha2q
    have : (2 : ℚ) ^ log2 n / 2 ^ log2 d * 2 * d = 2 ^ log2 n * 2 * (d / 2 ^ log2 d) := by
      field_simp
    rw [this]
    have hone : (1 : ℚ) ≤ d / 2 ^ log2 d := by
      rw [le_div_iff₀ hpb]; linarith
    nlinarith
  unfold floorLog2
  simp only []
  generalize hE : (log2 n : ℤ) - (log2 d : ℤ) = e0 at hlow hhigh ⊢
  have hbelow : ((if 0 ≤ e0 then decide (n < d * 2 ^ e0.toNat)
        else decide (n * 2 ^ (-e0).toNat < d)) = true) ↔ (n : ℚ) / d < 2 ^ e0 := by
    split
    · rename_i h0
      obtain ⟨k, rfl⟩ := Int.eq_ofNat_of_zero_le h0
      simp only [Int.toNat_ofNat, decide_eq_true_eq, zpow_natCast]
      rw [div_lt_iff₀ hdq]
      constructor
      · intro h
        have : (n : ℚ) < (d * 2 ^ k : ℕ) := by exact_mod_cast h
        push_cast at this
        linarith
      · intro h
        have : (n : ℚ) < (d * 2 ^ k : ℕ) := by push_cast; linarith
        exact_mod_cast this
    · rename_i h0
      obtain ⟨k, hk⟩ : ∃ k : ℕ, e0 = -(k : ℤ) := ⟨(-e0).toNat, by omega⟩
      subst hk
      simp only [neg_neg, Int.toNat_ofNat, decide_eq_true_eq, zpow_neg, zpow_natCast]
      rw [div_lt_iff₀ hdq]
      have hk : (0 : ℚ) < 2 ^ k := by positivity
      constructor
      · intro h
        have : ((n * 2 ^ k : ℕ) : ℚ) < d := by exact_mod_cast h
        push_cast at this
        rw [inv_mul_eq_div, lt_div_iff₀ hk]
        exact this
      · intro h
        rw [inv_mul_eq_div, lt_div_iff₀ hk] at h
        have : ((n * 2 ^ k : ℕ) : ℚ) < d := by push_cast; exact h
        exact_mod_cast this
  generalize (if 0 ≤ e0 then decide (n < d * 2 ^ e0.toNat)
      else decide (n * 2 ^ (-e0).toNat < d)) = below at hbelow ⊢
  cases below with
  | true =>
    have := hbelow.mp rfl
    refine ⟨by simpa using hlow, ?_⟩
    simpa using this
  | false =>
    have : ¬ (n : ℚ) / d < 2 ^ e0 := fun h => by simpa using hbelow.mpr h
    exact ⟨by simpa using not_lt.mp this, by simpa using hhigh⟩


/-- In the normal range the rounding error is at most `2 ^ (-53)` of the magnitude. -/
theorem roundFloat64_rel (neg : Bool) (n d : Nat) (hn : 0 < n) (hd : 0 < d)
    (hnormal : (2 : ℚ) ^ (-1022 : ℤ) ≤ (n : ℚ) / d) :
    |(roundFloat64 neg n d).toRat - (if neg then -1 else 1) * ((n : ℚ) / d)|
      ≤ (n : ℚ) / d * 2 ^ (-53 : ℤ) := by
  have h2 : (2 : ℚ) ≠ 0 := by norm_num
  obtain ⟨hlo, hhi⟩ := floorLog2_spec n d hn hd
  have hlt : (2 : ℚ) ^ (-1022 : ℤ) < 2 ^ (floorLog2 n d + 1) := lt_of_le_of_lt hnormal hhi
  have he : (-1022 : ℤ) < floorLog2 n d + 1 :=
    (zpow_lt_zpow_iff_right₀ (by norm_num : (1 : ℚ) < 2)).mp hlt
  have hmax : max (floorLog2 n d - 52) (-1074) = floorLog2 n d - 52 := by
    apply max_eq_left
    omega
  have := roundFloat64_near neg n d hd
  rw [hmax] at this
  refine le_trans this ?_
  have hsplit : (2 : ℚ) ^ (floorLog2 n d - 52) / 2 = 2 ^ floorLog2 n d * 2 ^ (-53 : ℤ) := by
    rw [zpow_sub₀ h2]
    norm_num
    ring
  rw [hsplit]
  gcongr

theorem roundHalfEven_one (n : Nat) : roundHalfEven n 1 = n := by
  simp [roundHalfEven, Nat.mod_one]

theorem sign_mul_natAbs (m : Int) :
    (if decide (m < 0) = true then (-1 : ℚ) else 1) * (m.natAbs : ℚ) = m := by
  rcases lt_or_le m 0 with hneg | hnn
  · simp only [hneg, decide_True, if_true]
    have : ((m.natAbs : ℤ) : ℚ) = ((-m : ℤ) : ℚ) := by
      congr 1
      omega
    rw [Int.cast_natCast] at this
    rw [this]
    push_cast
    ring
  · have hn' : ¬ m < 0 := not_lt.mpr hnn
    simp only [hn', decide_False, Bool.false_eq_true, if_false, one_mul]
    have : ((m.natAbs : ℤ) : ℚ) = ((m : ℤ) : ℚ) := by
      congr 1
      omega
    rw [Int.cast_natCast] at this
    exact this

/-- Integers below `2 ^ 53` in magnitude convert to `float64` without rounding. -/
theorem Float64.ofInt_exact (n : Int) (h : n.natAbs < 2 ^ 53) :
    (Float64.ofInt n).toRat = n := by
  unfold Float64.ofInt roundFloat64
  split
  · rename_i h0
    have : n = 0 := Int.natAbs_eq_zero.mp h0
    subst this
    simp [Float64.toRat]
  · rename_i h0
    have hpos : 0 < n.natAbs := Nat.pos_of_ne_zero h0
    obtain ⟨hlo, _⟩ := floorLog2_spec n.natAbs 1 hpos (by norm_num)
    have hlt : (2 : ℚ) ^ floorLog2 n.natAbs 1 < 2 ^ (53 : ℤ) := by
      refine lt_of_le_of_lt hlo ?_
      calc ((n.natAbs : ℕ) : ℚ) / ((1 : ℕ) : ℚ) = (n.natAbs : ℚ) := by simp
        _ < (2 : ℚ) ^ (53 : ℕ) := by exact_mod_cast h
        _ = 2 ^ (53 : ℤ) := by norm_num
    have he : floorLog2 n.natAbs 1 < 53 :=
      (zpow_lt_zpow_iff_right₀ (by norm_num : (1 : ℚ) < 2)).mp hlt
    simp only []
    generalize hq : max (floorLog2 n.natAbs 1 - 52) (-1074) = qe
    have hqe : qe ≤ 0 := by
      rw [← hq]
      apply max_le <;> omega
    generalize hm : (if 0 ≤ qe then roundHalfEven n.natAbs (1 * 2 ^ qe.toNat)
      else roundHalfEven (n.natAbs * 2 ^ (-qe).toNat) 1) = m
    have hM : (m : ℚ) * 2 ^ qe = n.natAbs := by
      rw [← hm]
      split
      · rename_i hq0
        have : qe = 0 := le_antisymm hqe hq0
        subst this
        simp [roundHalfEven_one]
      · obtain ⟨k, hk⟩ : ∃ k : ℕ, qe = -(k : ℤ) := ⟨(-qe).toNat, by omega⟩
        subst hk
        simp only [neg_neg, Int.toNat_ofNat, roundHalfEven_one, zpow_neg, zpow_natCast]
        push_cast
        field_simp
    rw [canonical_toRat, mul_assoc, hM]
    exact sign_mul_natAbs n

theorem two_pow_toNat_div (k : ℤ) : (2 : ℚ) ^ k.toNat / 2 ^ (-k).toNat = 2 ^ k := by
  rcases le_or_lt 0 k with h | h
  · obtain ⟨j, rfl⟩ := Int.eq_ofNat_of_zero_le h
    have : (-(j : ℤ)).toNat = 0 := by omega
    simp [this]
  · obtain ⟨j, hj⟩ : ∃ j : ℕ, k = -(j : ℤ) := ⟨(-k).toNat, by omega⟩
    subst hj
    have : (-(j : ℤ)).toNat = 0 := by omega
    simp [this]

/-- The fraction `Float64.div` rounds is the quotient of its operands. -/
theorem Float64.div_operand (x y : Float64) (hy : y.mant ≠ 0) :
    (if (decide (x.mant < 0) != decide (y.mant < 0)) = true then (-1 : ℚ) else 1)
        * (((x.mant.natAbs * 2 ^ (x.exp - y.exp).toNat : ℕ) : ℚ)
            / ((y.mant.natAbs * 2 ^ (-(x.exp - y.exp)).toNat : ℕ) : ℚ))
      = x.toRat / y.toRat := by
  have h2 : (2 : ℚ) ≠ 0 := by norm_num
  have hyq : (y.mant : ℚ) ≠ 0 := by exact_mod_cast hy
  have hyabs : (y.mant.natAbs : ℚ) ≠ 0 := by
    have : y.mant.natAbs ≠ 0 := Int.natAbs_ne_zero.mpr hy
    exact_mod_cast this
  have hx := sign_mul_natAbs x.mant
  have hy2 := sign_mul_natAbs y.mant
  have hpow := two_pow_toNat_div (x.exp - y.exp)
  have key : ((x.mant.natAbs * 2 ^ (x.exp - y.exp).toNat : ℕ) : ℚ)
            / ((y.mant.natAbs * 2 ^ (-(x.exp - y.exp)).toNat : ℕ) : ℚ)
      = (x.mant.natAbs : ℚ) / y.mant.natAbs * 2 ^ (x.exp - y.exp) := by
    rw [← hpow]
    push_cast
    field_simp
  rw [key]
  simp only [Float64.toRat]
  rw [zpow_sub₀ h2]
  have hsx : (x.mant : ℚ) = (if decide (x.mant < 0) = true then (-1 : ℚ) else 1) * x.mant.natAbs :=
    hx.symm
  have hsy : (y.mant : ℚ) = (if decide (y.mant < 0) = true then (-1 : ℚ) else 1) * y.mant.natAbs :=
    hy2.symm
  rw [hsx, hsy]
  have hpy : (2 : ℚ) ^ y.exp ≠ 0 := zpow_ne_zero _ h2
  by_cases hxn : x.mant < 0 <;> by_cases hyn : y.mant < 0 <;>
    simp [hxn, hyn] <;> field_simp


/-- Correct rounding of the quotient: in the normal range `Float64.div` is within
`2 ^ (-53)` of the exact quotient, relative to its magnitude. -/
theorem Float64.div_rel (x y : Float64) (hx : x.mant ≠ 0) (hy : y.mant ≠ 0)
    (hnormal : (2 : ℚ) ^ (-1022 : ℤ) ≤ |x.toRat / y.toRat|) :
    |(Float64.div x y).toRat - x.toRat / y.toRat| ≤ |x.toRat / y.toRat| * 2 ^ (-53 : ℤ) := by
  have hop := Float64.div_operand x y hy
  have hN : 0 < x.mant.natAbs * 2 ^ (x.exp - y.exp).toNat :=
    Nat.mul_pos (Int.natAbs_pos.mpr hx) (by positivity)
  have hD : 0 < y.mant.natAbs * 2 ^ (-(x.exp - y.exp)).toNat :=
    Nat.mul_pos (Int.natAbs_pos.mpr hy) (by positivity)
  rw [show Float64.div x y
      = roundFloat64 (decide (x.mant < 0) != decide (y.mant < 0))
          (x.mant.natAbs * 2 ^ (x.exp - y.exp).toNat)
          (y.mant.natAbs * 2 ^ (-(x.exp - y.exp)).toNat) from rfl]
  generalize x.mant.natAbs * 2 ^ (x.exp - y.exp).toNat = N at hop hN ⊢
  generalize y.mant.natAbs * 2 ^ (-(x.exp - y.exp)).toNat = D at hop hD ⊢
  have hq : (0 : ℚ) ≤ (N : ℚ) / D := by positivity
  have habs : |x.toRat / y.toRat| = (N : ℚ) / D := by
    rw [← hop, abs_mul, abs_of_nonneg hq]
    split <;> simp
  rw [habs] at hnormal ⊢
  rw [← hop]
  exact roundFloat64_rel _ N D hN hD hnormal

/-- The elapsed time in milliseconds, as `Write` computes it, is within `2 ^ (-53)`
(relative) of the exact quotient, for every duration below `2 ^ 53` ns. -/
theorem elapsed_ms_accuracy (elapsed : Int) (h : elapsed.natAbs < 2 ^ 53) :
    |(Float64.div (Float64.ofInt elapsed) (Float64.ofInt 1000000)).toRat
        - (elapsed : ℚ) / 1000000| ≤ |(elapsed : ℚ)| / 1000000 * 2 ^ (-53 : ℤ) := by
  have hy : Float64.ofInt 1000000 = ⟨15625, 6⟩ := by decide
  have hyr : (Float64.ofInt 1000000).toRat = 1000000 := by
    rw [hy]
    norm_num [Float64.toRat]
  have hxr := Float64.ofInt_exact elapsed h
  by_cases h0 : elapsed = 0
  · subst h0
    have : Float64.div (Float64.ofInt 0) (Float64.ofInt 1000000) = ⟨0, 0⟩ := by decide
    rw [this]
    simp [Float64.toRat]
  · have hxm : (Float64.ofInt elapsed).mant ≠ 0 := by
      intro hm
      have : (Float64.ofInt elapsed).toRat = 0 := by simp [Float64.toRat, hm]
      rw [hxr] at this
      exact h0 (by exact_mod_cast this)
    have hym : (Float64.ofInt 1000000).mant ≠ 0 := by
      rw [hy]
      decide
    have hge : (1 : ℚ) ≤ |(elapsed : ℚ)| := by
      have : (1 : ℤ) ≤ |elapsed| := Int.one_le_abs h0
      exact_mod_cast this
    have hnormal : (2 : ℚ) ^ (-1022 : ℤ) ≤
        |(Float64.ofInt elapsed).toRat / (Float64.ofInt 1000000).toRat| := by
      rw [hxr, hyr, abs_div]
      have h1 : (2 : ℚ) ^ (-1022 : ℤ) ≤ 2 ^ (-20 : ℤ) :=
        zpow_le_zpow_right₀ (by norm_num) (by norm_num)
      have h2 : (2 : ℚ) ^ (-20 : ℤ) ≤ 1 / 1000000 := by norm_num
      have h3 : (1 : ℚ) / 1000000 ≤ |(elapsed : ℚ)| / |(1000000 : ℚ)| := by
        rw [abs_of_pos (by norm_num : (0 : ℚ) < 1000000)]
        gcongr
      linarith
    have := Float64.div_rel _ _ hxm hym hnormal
    rw [hxr, hyr, abs_div, abs_of_pos (by norm_num : (0 : ℚ) < 1000000)] at this
    exact this

/-! ## Lemmas on the string functions -/

theorem splitChars_ne_nil (sep : Char) (s : List Char) : splitChars sep s ≠ [] := by
  cases s with
  | nil => simp [splitChars]
  | cons c cs =>
    simp only [splitChars]
    split
    · simp
    · split <;> simp

theorem splitChars_no_sep (sep : Char) (a : List Char) (h : sep ∉ a) :
    splitChars sep a = [a] := by
  induction a with
  | nil => simp [splitChars]
  | cons c cs ih =>
    have hc : c ≠ sep := fun e => h (by simp [e])
    have hcs : sep ∉ cs := fun e => h (by simp [e])
    simp [splitChars, hc, ih hcs]

theorem splitChars_append_sep (sep : Char) (a b : List Char) (h : sep ∉ a) :
    splitChars sep (a ++ sep :: b) = a :: splitChars sep b := by
  induction a with
  | nil => simp [splitChars]
  | cons c cs ih =>
    have hc : c ≠ sep := fun e => h (by simp [e])
    have hcs : sep ∉ cs := fun e => h (by simp [e])
    simp [splitChars, hc, ih hcs]

/-- The first piece of `Split` is the text before the first separator. -/
theorem Split_first (first rest : String) (h : ',' ∉ first.data)
    (hrest : rest = "" ∨ ∃ t : String, rest = "," ++ t) :
    ∃ tail, Split (first ++ rest) ',' = first :: tail := by
  rcases hrest with hr | ⟨t, hr⟩
  · subst hr
    refine ⟨[], ?_⟩
    simp [Split, splitChars_no_sep _ _ h]
  · subst hr
    refine ⟨(splitChars ',' t.data).map String.mk, ?_⟩
    have : (first ++ ("," ++ t)).data = first.data ++ ',' :: t.data := by
      simp [String.data_append]
    simp [Split, this, splitChars_append_sep _ _ _ h]

/-- Every string splits into a comma-free first entry and a rest that is empty or
starts with a comma. -/
theorem exists_first_entry (addr : String) :
    ∃ first rest : String, addr = first ++ rest ∧ ',' ∉ first.data ∧
      (rest = "" ∨ ∃ t : String, rest = "," ++ t) := by
  obtain ⟨cs⟩ := addr
  induction cs with
  | nil => exact ⟨"", "", by decide, by simp, Or.inl rfl⟩
  | cons c cs ih =>
    by_cases hc : c = ','
    · subst hc
      exact ⟨"", String.mk (',' :: cs), by simp [String.ext_iff], by simp,
        Or.inr ⟨String.mk cs, by simp [String.ext_iff]⟩⟩
    · obtain ⟨f, r, hfr, hf, hr⟩ := ih
      refine ⟨String.mk (c :: f.data), r, ?_, ?_, hr⟩
      · have := congrArg String.data hfr
        simp [String.ext_iff] at this ⊢
        exact this
      · simp only [List.mem_cons, not_or]
        exact ⟨fun e => hc e.symm, hf⟩

/-! ## Lemmas on `appendGeoData` -/

theorem appendGeoData_append (net : NetLib) (kvs : List Any) (r : Request)
    (db : Option Reader) :
    appendGeoData net kvs r db = kvs ++ appendGeoData net [] r db := by
  unfold appendGeoData
  cases db with
  | none => simp
  | some db =>
    simp only []
    split
    · simp
    · split
      · simp
      · split <;> simp

/-- With a database, `appendGeoData` is decided by its first comma-separated entry. -/
theorem appendGeoData_first (net : NetLib) (db : Reader) (kvs : List Any) (r : Request)
    (first rest : String) (haddr : getIP r = first ++ rest) (hfirst : ',' ∉ first.data)
    (hrest : rest = "" ∨ ∃ t : String, rest = "," ++ t) :
    appendGeoData net kvs r (some db) =
      match (match net.SplitHostPort (TrimSpace first) with
          | Except.ok (host, _) => net.ParseIP host
          | Except.error _ => net.ParseIP (TrimSpace first)) with
      | none => kvs ++ [Any.str "remote_addr", Any.str (first ++ rest)]
      | some ip =>
        match db.City ip with
        | Except.error _ => kvs ++ [Any.str "remote_addr", Any.str (first ++ rest)]
        | Except.ok record =>
          kvs ++ [Any.str "remote_addr", Any.str (first ++ rest),
            Any.str "remote_city", Any.str (mapIndex record.CityNames "en"),
            Any.str "remote_country", Any.str record.CountryIsoCode,
            Any.str "remote_tz", Any.str record.LocationTimeZone] := by
  obtain ⟨tail, hsplit⟩ := Split_first first rest hfirst hrest
  unfold appendGeoData
  simp only [haddr, hsplit]
  split
  · rename_i hip
    rw [hip]
  · rename_i hip
    rw [hip]
    split
    · rename_i hcity
      simp [hcity]
    · rename_i hcity
      simp [hcity]

/-! ## Package `request_ulid`: the claims -/

/-- C1. For every request whose `X-Request-ID` header value `h` is not empty, the
`RequestID` handler is exactly one run of `next`, from the unchanged world (so no
identifier was generated), on the request whose context binds the request-id key
to `h`; `GetReqID` on that context returns `h` itself. -/
theorem RequestID_header_passthrough (newULID : Nat → String) (next : Handler)
    (w : ResponseWriter) (r : Request) (s : World) (h : String)
    (hh : r.Header.Get "X-Request-ID" = h) (hne : h ≠ "") :
    RequestID newULID next w r s
        = next w (r.WithContext (WithValue r.Context CtxKey.RequestIDKey (CtxVal.str h))) s
      ∧ (r.WithContext (WithValue r.Context CtxKey.RequestIDKey (CtxVal.str h))).Context.Value
          CtxKey.RequestIDKey = some (CtxVal.str h)
      ∧ GetReqID (some
          (r.WithContext (WithValue r.Context CtxKey.RequestIDKey (CtxVal.str h))).Context) = h := by
  have hcanon : CanonicalMIMEHeaderKey "X-Request-ID" = CanonicalMIMEHeaderKey RequestIDHeader := by
    decide
  have hget : r.Header.Get RequestIDHeader = h := by
    rw [← hh]
    simp only [Header.Get, hcanon]
  refine ⟨?_, ?_, ?_⟩
  · simp only [RequestID, hget, if_neg hne]
  · simp [Request.WithContext, Request.Context, WithValue, Context.Value, List.lookup]
  · simp [GetReqID, Request.WithContext, Request.Context, WithValue, Context.Value, List.lookup]

/-- Witness of C1: the header value `" AbC-123 "` reaches `next` untouched, blanks and
capitals included, and the generator count stays at 7. -/
theorem RequestID_header_passthrough_witness :
    (sampleRequest [("X-Request-Id", [" AbC-123 "])] []).Header.Get "X-Request-ID" = " AbC-123 "
      ∧ " AbC-123 " ≠ ""
      ∧ RequestID (fun n => toString n) echoHandler ⟨0⟩
          (sampleRequest [("X-Request-Id", [" AbC-123 "])] []) ⟨[], [], 7⟩
        = Except.ok ⟨[], [⟨Level.info, "next", [Any.str "seen", Any.str " AbC-123 "]⟩], 7⟩ :=
  ⟨by decide, by decide,
    (RequestID_header_passthrough (fun n => toString n) echoHandler ⟨0⟩
      (sampleRequest [("X-Request-Id", [" AbC-123 "])] []) ⟨[], [], 7⟩ " AbC-123 "
      (by decide) (by decide)).1.trans rfl⟩

/-! ## Package `logr`: geo enrichment -/

theorem getIP_eq (r : Request) :
    getIP r = if r.Header.Get "X-Forwarded-For" ≠ "" then r.Header.Get "X-Forwarded-For"
      else r.RemoteAddr := by
  have hcanon : CanonicalMIMEHeaderKey "X-FORWARDED-FOR" = CanonicalMIMEHeaderKey "X-Forwarded-For" := by
    decide
  simp only [getIP, Header.Get, hcanon]

/-- C4, the claim as stated fails: the database holds nothing for 198.51.100.7, the
lookup returns the zero record without error, and `appendGeoData` adds
`remote_city`, `remote_country` and `remote_tz` with empty values behind
`remote_addr`. -/
theorem appendGeoData_unknown_address_empty_fields :
    seattleDB.City [0, 0, 0, 0, 0, 0, 0, 0, 0, 0, 255, 255, 198, 51, 100, 7]
      = Except.ok { CityNames := [], CountryIsoCode := "", LocationTimeZone := "" }
    ∧ appendGeoData ipv4Net []
        (sampleRequest [("X-Forwarded-For", ["198.51.100.7:80, 203.0.113.5"])] []) (some seattleDB)
      = [Any.str "remote_addr", Any.str "198.51.100.7:80, 203.0.113.5",
          Any.str "remote_city", Any.str "",
          Any.str "remote_country", Any.str "",
          Any.str "remote_tz", Any.str ""]
    ∧ appendGeoData ipv4Net []
        (sampleRequest [("X-Forwarded-For", ["198.51.100.7:80, 203.0.113.5"])] []) (some seattleDB)
      ≠ [Any.str "remote_addr", Any.str "198.51.100.7:80, 203.0.113.5"] := by
  refine ⟨rfl, ?_, ?_⟩ <;> decide

/-- C4, amended. With a database configured, when the trimmed first comma-separated
entry of the remote address yields no IP (the host:port split succeeds and the host is
no IP literal, or the split fails and the whole entry is no IP literal), or the lookup
of the parsed IP returns an error, `appendGeoData` returns the input list followed by
the single pair `remote_addr`, the whole address: the only key added is
`remote_addr`. The function is total, so it never fails. -/
theorem appendGeoData_unresolved (net : NetLib) (db : Reader) (kvs : List Any) (r : Request)
    (first rest : String) (haddr : getIP r = first ++ rest) (hfirst : ',' ∉ first.data)
    (hrest : rest = "" ∨ ∃ t : String, rest = "," ++ t)
    (h : (∃ host port, net.SplitHostPort (TrimSpace first) = Except.ok (host, port) ∧
            net.ParseIP host = none) ∨
         (∃ err, net.SplitHostPort (TrimSpace first) = Except.error err ∧
            net.ParseIP (TrimSpace first) = none) ∨
         (∃ ip msg,
            ((∃ host port, net.SplitHostPort (TrimSpace first) = Except.ok (host, port) ∧
                net.ParseIP host = some ip) ∨
             (∃ err, net.SplitHostPort (TrimSpace first) = Except.error err ∧
                net.ParseIP (TrimSpace first) = some ip)) ∧
            db.City ip = Except.error msg)) :
    appendGeoData net kvs r (some db) = kvs ++ [Any.str "remote_addr", Any.str (getIP r)]
      ∧ fieldKeys ((appendGeoData net kvs r (some db)).drop kvs.length) = [Any.str "remote_addr"] := by
  have key : appendGeoData net kvs r (some db)
      = kvs ++ [Any.str "remote_addr", Any.str (getIP r)] := by
    rw [appendGeoData_first net db kvs r first rest haddr hfirst hrest, haddr]
    rcases h with ⟨host, port, hs, hp⟩ | ⟨err, hs, hp⟩ | ⟨ip, msg, hres, hcity⟩
    · simp [hs, hp]
    · simp [hs, hp]
    · rcases hres with ⟨host, port, hs, hp⟩ | ⟨err, hs, hp⟩
      · simp [hs, hp, hcity]
      · simp [hs, hp, hcity]
  refine ⟨key, ?_⟩
  rw [key]
  simp [fieldKeys]

/-- Witness of C4: a closed reader asked for a well-formed address (with a second
entry behind it), the empty address, and garbage text. -/
theorem appendGeoData_unresolved_witness :
    appendGeoData ipv4Net [Any.str "ts", Any.str "t0"]
        (sampleRequest [("X-Forwarded-For", ["198.51.100.7:80, 203.0.113.5"])] []) (some closedDB)
      = [Any.str "ts", Any.str "t0",
          Any.str "remote_addr", Any.str "198.51.100.7:80, 203.0.113.5"]
    ∧ appendGeoData ipv4Net []
        { sampleRequest [] [] with RemoteAddr := "" } (some seattleDB)
      = [Any.str "remote_addr", Any.str ""]
    ∧ appendGeoData ipv4Net []
        (sampleRequest [("X-Forwarded-For", ["not an address"])] []) (some seattleDB)
      = [Any.str "remote_addr", Any.str "not an address"] :=
  ⟨(appendGeoData_unresolved ipv4Net closedDB [Any.str "ts", Any.str "t0"]
      (sampleRequest [("X-Forwarded-For", ["198.51.100.7:80, 203.0.113.5"])] [])
      "198.51.100.7:80" ", 203.0.113.5" (by decide) (by decide)
      (Or.inr ⟨" 203.0.113.5", by decide⟩)
      (Or.inr (Or.inr ⟨[0, 0, 0, 0, 0, 0, 0, 0, 0, 0, 255, 255, 198, 51, 100, 7],
        "cannot call Lookup on a closed database",
        Or.inl ⟨"198.51.100.7", "80", rfl, by decide⟩, rfl⟩))).1,
   (appendGeoData_unresolved ipv4Net seattleDB []
      { sampleRequest [] [] with RemoteAddr := "" }
      "" "" (by decide) (by decide) (Or.inl rfl)
      (Or.inr (Or.inl ⟨AddrError.missingPort, rfl, by decide⟩))).1,
   (appendGeoData_unresolved ipv4Net seattleDB []
      (sampleRequest [("X-Forwarded-For", ["not an address"])] [])
      "not an address" "" (by decide) (by decide) (Or.inl rfl)
      (Or.inr (Or.inl ⟨AddrError.missingPort, rfl, by decide⟩))).1⟩

/-- C5. With a database configured, when the trimmed first comma-separated entry of
the remote address is `ip:port` or a bare IP literal for an IP the database resolves,
`appendGeoData` returns the input list followed by `remote_addr` (the whole raw
address), `remote_city` (the English name, empty when the record has none),
`remote_country` and `remote_tz`, in this order. Only the host part of the first entry
is looked up; the rest of the chain is not read. The address is the
`X-Forwarded-For` value whenever that is not empty. -/
theorem appendGeoData_resolved (net : NetLib) (db : Reader) (kvs : List Any) (r : Request)
    (first rest : String) (ip : IP) (record : City)
    (haddr : getIP r = first ++ rest) (hfirst : ',' ∉ first.data)
    (hrest : rest = "" ∨ ∃ t : String, rest = "," ++ t)
    (hip : (∃ host port, net.SplitHostPort (TrimSpace first) = Except.ok (host, port) ∧
              net.ParseIP host = some ip) ∨
           (∃ err, net.SplitHostPort (TrimSpace first) = Except.error err ∧
              net.ParseIP (TrimSpace first) = some ip))
    (hcity : db.City ip = Except.ok record) :
    appendGeoData net kvs r (some db)
        = kvs ++ [Any.str "remote_addr", Any.str (getIP r),
            Any.str "remote_city", Any.str (mapIndex record.CityNames "en"),
            Any.str "remote_country", Any.str record.CountryIsoCode,
            Any.str "remote_tz", Any.str record.LocationTimeZone]
      ∧ (record.CityNames.lookup "en" = none → mapIndex record.CityNames "en" = "")
      ∧ (∀ name, record.CityNames.lookup "en" = some name →
          mapIndex record.CityNames "en" = name)
      ∧ (r.Header.Get "X-Forwarded-For" ≠ "" → getIP r = r.Header.Get "X-Forwarded-For") := by
  refine ⟨?_, ?_, ?_, ?_⟩
  · rw [appendGeoData_first net db kvs r first rest haddr hfirst hrest, haddr]
    rcases hip with ⟨host, port, hs, hp⟩ | ⟨err, hs, hp⟩
    · simp [hs, hp, hcity]
    · simp [hs, hp, hcity]
  · intro hnone
    simp [mapIndex, hnone]
  · intro name hsome
    simp [mapIndex, hsome]
  · intro hne
    rw [getIP_eq, if_pos hne]

/-- Witness of C5: the chain `203.0.113.5:443, 70.41.3.18` is looked up as
203.0.113.5 and logged whole. -/
theorem appendGeoData_resolved_witness :
    appendGeoData ipv4Net []
        (sampleRequest [("X-Forwarded-For", ["203.0.113.5:443, 70.41.3.18"])] []) (some seattleDB)
      = [Any.str "remote_addr", Any.str "203.0.113.5:443, 70.41.3.18",
          Any.str "remote_city", Any.str "Seattle",
          Any.str "remote_country", Any.str "US",
          Any.str "remote_tz", Any.str "America/Los_Angeles"] :=
  (appendGeoData_resolved ipv4Net seattleDB []
    (sampleRequest [("X-Forwarded-For", ["203.0.113.5:443, 70.41.3.18"])] [])
    "203.0.113.5:443" ", 70.41.3.18" [0, 0, 0, 0, 0, 0, 0, 0, 0, 0, 255, 255, 203, 0, 113, 5]
    { CityNames := [("en", "Seattle")], CountryIsoCode := "US",
      LocationTimeZone := "America/Los_Angeles" }
    (by decide) (by decide) (Or.inr ⟨" 70.41.3.18", by decide⟩)
    (Or.inl ⟨"203.0.113.5", "443", rfl, by decide⟩) rfl).1

/-- C6. Without a database, `appendGeoData` returns the input list followed by the
single pair `remote_addr`, the value of `getIP`, which is the `X-Forwarded-For` header
value when that is not empty and the connection address otherwise; the only key added
is `remote_addr`. A request from 10.0.0.9:51000 without the header gets
`remote_addr = "10.0.0.9:51000"` and nothing else. -/
theorem appendGeoData_no_database (net : NetLib) (kvs : List Any) (r : Request) :
    appendGeoData net kvs r none = kvs ++ [Any.str "remote_addr", Any.str (getIP r)]
      ∧ getIP r = (if r.Header.Get "X-Forwarded-For" ≠ "" then r.Header.Get "X-Forwarded-For"
          else r.RemoteAddr)
      ∧ fieldKeys ((appendGeoData net kvs r none).drop kvs.length) = [Any.str "remote_addr"]
      ∧ appendGeoData net [] (sampleRequest [] []) none
          = [Any.str "remote_addr", Any.str "10.0.0.9:51000"] := by
  have key : ∀ (kvs : List Any) (r : Request),
      appendGeoData net kvs r none = kvs ++ [Any.str "remote_addr", Any.str (getIP r)] := by
    intro kvs r
    simp [appendGeoData]
  refine ⟨key kvs r, getIP_eq r, ?_, ?_⟩
  · rw [key]
    simp [fieldKeys]
  · rw [key]
    have : getIP (sampleRequest [] []) = "10.0.0.9:51000" := by decide
    rw [this]
    rfl

/-! ## Lemmas on the heap -/

theorem heap_lt_of_get (heap : List LogrEntry) (p : Ptr) (e : LogrEntry)
    (hp : heap[p]? = some e) : p < heap.length := by
  rcases Nat.lt_or_ge p heap.length with h | h
  · exact h
  · rw [List.getElem?_eq_none h] at hp
    exact absurd hp (by simp)

theorem heap_set_get (heap : List LogrEntry) (p : Ptr) (e x : LogrEntry)
    (hp : heap[p]? = some e) : (heap.set p x)[p]? = some x := by
  simp [heap_lt_of_get heap p e hp]

theorem heap_set_other (heap : List LogrEntry) (p q : Ptr) (x : LogrEntry) (hq : q ≠ p) :
    (heap.set p x)[q]? = heap[q]? := by
  simp [List.getElem?_set, Ne.symm hq]

/-! ## Package `logr`: the entry -/

/-- The three fields `Write` adds and the record it emits. -/
theorem Write_eq (l : Ptr) (e : LogrEntry) (status bytes elapsed : Int) (header : Header)
    (extra : Any) (s : World) (hl : s.heap[l]? = some e) :
    LogrEntry.Write l status bytes header elapsed extra s
      = Except.ok
          { heap := s.heap.set l
              { log := { values := e.log.values ++
                  [Any.str "resp_status", Any.int status,
                   Any.str "resp_bytes_length", Any.int bytes,
                   Any.str "resp_elapsed_ms",
                    Any.float64 (Float64.div (Float64.ofInt elapsed) (Float64.ofInt 1000000))] } },
            sink := s.sink ++
              [{ level := Level.info, msg := "request complete",
                 fields := e.log.values ++
                  [Any.str "resp_status", Any.int status,
                   Any.str "resp_bytes_length", Any.int bytes,
                   Any.str "resp_elapsed_ms",
                    Any.float64 (Float64.div (Float64.ofInt elapsed) (Float64.ofInt 1000000))] }],
            ulids := s.ulids } := by
  simp [LogrEntry.Write, hl, LogrLogger.WithValues, LogrLogger.Info, Nanoseconds]

/-- The two fields `Panic` adds. -/
theorem Panic_eq (render : Any → String) (l : Ptr) (e : LogrEntry) (v : Any)
    (stack : List Char) (s : World) (hl : s.heap[l]? = some e) :
    LogrEntry.Panic render l v stack s
      = Except.ok
          { heap := s.heap.set l
              { log := { values := e.log.values ++
                  [Any.str "stack", Any.str (String.mk stack),
                   Any.str "panic", Any.str (SprintfPlusV render v)] } },
            sink := s.sink,
            ulids := s.ulids } := by
  simp [LogrEntry.Panic, hl, LogrLogger.WithValues, bytesToString]

theorem LogEntrySetFields_eq (r : Request) (s : World) (p : Ptr) (e : LogrEntry)
    (kvs : List Any)
    (hctx : r.Context.Value CtxKey.LogEntryCtxKey = some (CtxVal.logrEntry p))
    (hp : s.heap[p]? = some e) :
    LogEntrySetFields r kvs s
      = Except.ok { heap := s.heap.set p { log := { values := e.log.values ++ kvs } },
                    sink := s.sink, ulids := s.ulids } := by
  simp [LogEntrySetFields, hctx, hp, LogrLogger.WithValues]

/-- C2, the claim as stated fails: for an elapsed time of one nanosecond the
`resp_elapsed_ms` field is the `float64` 4722366482869645 * 2^(-72), the double
nearest to one millionth (53 significant bits, less than half a unit in the last
place away), and not the fraction 1/1000000 itself. -/
theorem Write_one_nanosecond_inexact :
    LogrEntry.Write 0 200 1024 [] 1 Any.nil ⟨[⟨⟨[]⟩⟩], [], 0⟩
      = Except.ok
          ⟨[⟨⟨[Any.str "resp_status", Any.int 200, Any.str "resp_bytes_length", Any.int 1024,
                Any.str "resp_elapsed_ms", Any.float64 ⟨4722366482869645, -72⟩]⟩⟩],
           [⟨Level.info, "request complete",
              [Any.str "resp_status", Any.int 200, Any.str "resp_bytes_length", Any.int 1024,
                Any.str "resp_elapsed_ms", Any.float64 ⟨4722366482869645, -72⟩]⟩],
           0⟩
      ∧ Float64.toRat ⟨4722366482869645, -72⟩ ≠ (1 : ℚ) / 1000000
      ∧ (2 : ℚ) ^ 52 ≤ 4722366482869645 ∧ (4722366482869645 : ℚ) < 2 ^ 53
      ∧ |Float64.toRat ⟨4722366482869645, -72⟩ - (1 : ℚ) / 1000000| < 2 ^ (-73 : ℤ) := by
  refine ⟨rfl, ?_, ?_, ?_, ?_⟩
  · norm_num [Float64.toRat]
  · norm_num
  · norm_num
  · rw [abs_lt]
    constructor <;> norm_num [Float64.toRat]

/-- C2, amended. `Write` on an allocated entry appends exactly `resp_status = status`,
`resp_bytes_length = bytes` and `resp_elapsed_ms = float64(ns) / 1000000.0`, the
`float64` quotient, after the fields accumulated before, stores the longer list in the
entry, changes no other entry, and hands exactly one more record to the sink: level
info, message "request complete", with the whole list. The quotient is rounded to
nearest: below `2 ^ 53` ns it differs from ns / 1000000 by at most `2 ^ (-53)` of that
value, and for 2,500,000 ns it is exactly 2.5. -/
theorem Write_appends_and_emits (l : Ptr) (e : LogrEntry) (status bytes elapsed : Int)
    (header : Header) (extra : Any) (s : World) (hl : s.heap[l]? = some e) :
    ∃ s', LogrEntry.Write l status bytes header elapsed extra s = Except.ok s'
      ∧ s'.heap[l]? = some
          { log := { values := e.log.values ++
              [Any.str "resp_status", Any.int status,
               Any.str "resp_bytes_length", Any.int bytes,
               Any.str "resp_elapsed_ms",
                Any.float64 (Float64.div (Float64.ofInt elapsed) (Float64.ofInt 1000000))] } }
      ∧ (∀ p, p ≠ l → s'.heap[p]? = s.heap[p]?)
      ∧ s'.sink = s.sink ++
          [{ level := Level.info, msg := "request complete",
             fields := e.log.values ++
              [Any.str "resp_status", Any.int status,
               Any.str "resp_bytes_length", Any.int bytes,
               Any.str "resp_elapsed_ms",
                Any.float64 (Float64.div (Float64.ofInt elapsed) (Float64.ofInt 1000000))] }]
      ∧ s'.ulids = s.ulids
      ∧ (elapsed.natAbs < 2 ^ 53 →
          |(Float64.div (Float64.ofInt elapsed) (Float64.ofInt 1000000)).toRat
              - (elapsed : ℚ) / 1000000| ≤ |(elapsed : ℚ)| / 1000000 * 2 ^ (-53 : ℤ))
      ∧ (Float64.div (Float64.ofInt 2500000) (Float64.ofInt 1000000)).toRat = 5 / 2 := by
  refine ⟨_, Write_eq l e status bytes elapsed header extra s hl,
    heap_set_get _ _ _ _ hl, fun _ hp => heap_set_other _ _ _ _ hp, rfl, rfl,
    elapsed_ms_accuracy elapsed, ?_⟩
  have h25 : Float64.div (Float64.ofInt 2500000) (Float64.ofInt 1000000) = ⟨5, -1⟩ := by
    decide
  rw [h25]
  norm_num [Float64.toRat]

/-- Witness of C2: status 200, 1024 bytes, 2,500,000 ns on an entry holding one field. -/
theorem Write_appends_and_emits_witness :
    ∃ s', LogrEntry.Write 0 200 1024 [] 2500000 Any.nil
          ⟨[⟨⟨[Any.str "uri", Any.str "/"]⟩⟩], [], 0⟩ = Except.ok s'
      ∧ s'.sink = [⟨Level.info, "request complete",
          [Any.str "uri", Any.str "/", Any.str "resp_status", Any.int 200,
           Any.str "resp_bytes_length", Any.int 1024,
           Any.str "resp_elapsed_ms", Any.float64 ⟨5, -1⟩]⟩] := by
  obtain ⟨s', h1, _, _, h4, _⟩ :=
    Write_appends_and_emits 0 ⟨⟨[Any.str "uri", Any.str "/"]⟩⟩ 200 1024 2500000 [] Any.nil
      ⟨[⟨⟨[Any.str "uri", Any.str "/"]⟩⟩], [], 0⟩ rfl
  refine ⟨s', h1, ?_⟩
  rw [h4]
  decide

/-- C3. `Panic` on an allocated entry appends exactly the two fields `stack` (the
stack bytes as text) and `panic` (the `%+v` rendering of the value; a string renders
as itself, so "boom" gives "boom") after the fields accumulated before, leaves every
other entry alone, and hands nothing to the sink. -/
theorem Panic_appends_without_record (render : Any → String) (l : Ptr) (e : LogrEntry)
    (v : Any) (stack : List Char) (s : World) (hl : s.heap[l]? = some e) :
    ∃ s', LogrEntry.Panic render l v stack s = Except.ok s'
      ∧ s'.heap[l]? = some
          { log := { values := e.log.values ++
              [Any.str "stack", Any.str (String.mk stack),
               Any.str "panic", Any.str (SprintfPlusV render v)] } }
      ∧ (∀ p, p ≠ l → s'.heap[p]? = s.heap[p]?)
      ∧ s'.sink = s.sink
      ∧ s'.ulids = s.ulids
      ∧ SprintfPlusV render (Any.str "boom") = "boom" :=
  ⟨_, Panic_eq render l e v stack s hl, heap_set_get _ _ _ _ hl,
    fun _ hp => heap_set_other _ _ _ _ hp, rfl, rfl, rfl⟩

/-- Witness of C3: a panic with the value "boom" on an entry that already logged its
start. -/
theorem Panic_appends_without_record_witness :
    ∃ s', LogrEntry.Panic (fun _ => "?") 0 (Any.str "boom") ['m', 'a', 'i', 'n']
          ⟨[⟨⟨[Any.str "uri", Any.str "/"]⟩⟩],
            [⟨Level.info, "request started", [Any.str "uri", Any.str "/"]⟩], 0⟩ = Except.ok s'
      ∧ s'.heap[0]? = some ⟨⟨[Any.str "uri", Any.str "/", Any.str "stack", Any.str "main",
          Any.str "panic", Any.str "boom"]⟩⟩
      ∧ s'.sink = [⟨Level.info, "request started", [Any.str "uri", Any.str "/"]⟩] := by
  obtain ⟨s', h1, h2, _, h4, _⟩ :=
    Panic_appends_without_record (fun _ => "?") 0 ⟨⟨[Any.str "uri", Any.str "/"]⟩⟩
      (Any.str "boom") ['m', 'a', 'i', 'n']
      ⟨[⟨⟨[Any.str "uri", Any.str "/"]⟩⟩],
        [⟨Level.info, "request started", [Any.str "uri", Any.str "/"]⟩], 0⟩ rfl
  exact ⟨s', h1, h2, h4⟩

/-! ## Package `logr`: the context helpers -/

/-- C7. When the request context binds no `*LogrEntry` under the log-entry key (no
value at all, or a value of another type), `LogEntrySetField` and `LogEntrySetFields`
return normally and leave the world as it was: no entry changes and nothing reaches
the sink. -/
theorem LogEntrySet_without_entry (r : Request) (s : World) (key : String) (value : Any)
    (keysAndValues : List Any)
    (h : ∀ p, r.Context.Value CtxKey.LogEntryCtxKey ≠ some (CtxVal.logrEntry p)) :
    LogEntrySetField r key value s = Except.ok s
      ∧ LogEntrySetFields r keysAndValues s = Except.ok s := by
  constructor
  · unfold LogEntrySetField
    split
    · rename_i p hp
      exact absurd hp (h p)
    · rfl
  · unfold LogEntrySetFields
    split
    · rename_i p hp
      exact absurd hp (h p)
    · rfl

/-- Witness of C7: an empty context, and a context whose log-entry key holds a string. -/
theorem LogEntrySet_without_entry_witness :
    (LogEntrySetField (sampleRequest [] []) "user" (Any.str "u1")
        ⟨[⟨⟨[Any.str "uri", Any.str "/"]⟩⟩], [], 3⟩
      = Except.ok ⟨[⟨⟨[Any.str "uri", Any.str "/"]⟩⟩], [], 3⟩)
    ∧ (LogEntrySetFields
        (sampleRequest [] [(CtxKey.LogEntryCtxKey, CtxVal.str "not an entry")])
        [Any.str "user", Any.str "u1"] ⟨[⟨⟨[Any.str "uri", Any.str "/"]⟩⟩], [], 3⟩
      = Except.ok ⟨[⟨⟨[Any.str "uri", Any.str "/"]⟩⟩], [], 3⟩) :=
  ⟨(LogEntrySet_without_entry (sampleRequest [] []) ⟨[⟨⟨[Any.str "uri", Any.str "/"]⟩⟩], [], 3⟩
      "user" (Any.str "u1") []
      (by
        intro p
        rw [show (sampleRequest [] []).Context.Value CtxKey.LogEntryCtxKey = none from by decide]
        simp)).1,
   (LogEntrySet_without_entry
      (sampleRequest [] [(CtxKey.LogEntryCtxKey, CtxVal.str "not an entry")])
      ⟨[⟨⟨[Any.str "uri", Any.str "/"]⟩⟩], [], 3⟩
      "user" (Any.str "u1") [Any.str "user", Any.str "u1"]
      (by
        intro p
        rw [show (sampleRequest [] [(CtxKey.LogEntryCtxKey, CtxVal.str "not an entry")]).Context.Value
            CtxKey.LogEntryCtxKey = some (CtxVal.str "not an entry") from by decide]
        simp)).2⟩

/-- C10. `GetLogEntry` returns a logger exactly when the context binds a `*LogrEntry`
(an allocated one) under the log-entry key, and the logger is then the one the entry
holds now. When the key is unbound or bound to a value of another type, `GetLogEntry`
panics on its type assertion, while `LogEntrySetField` and `LogEntrySetFields` return
normally on the same request. -/
theorem GetLogEntry_ok_iff (r : Request) (s : World) :
    (∀ lg, GetLogEntry r s = Except.ok lg ↔
        ∃ p e, r.Context.Value CtxKey.LogEntryCtxKey = some (CtxVal.logrEntry p)
          ∧ s.heap[p]? = some e ∧ e.log = lg)
      ∧ ((∀ p, r.Context.Value CtxKey.LogEntryCtxKey ≠ some (CtxVal.logrEntry p)) →
          GetLogEntry r s = Except.error GoPanic.typeAssertion
            ∧ (∀ key value, LogEntrySetField r key value s = Except.ok s)
            ∧ (∀ kvs, LogEntrySetFields r kvs s = Except.ok s)) := by
  constructor
  · intro lg
    unfold GetLogEntry middleware.GetLogEntry
    constructor
    · intro h
      cases hv : r.Context.Value CtxKey.LogEntryCtxKey with
      | none => simp [hv] at h
      | some v =>
        cases v with
        | str x => simp [hv] at h
        | otherLogEntry x => simp [hv] at h
        | other x => simp [hv] at h
        | logrEntry p =>
          simp only [hv] at h
          cases hp : s.heap[p]? with
          | none => simp [hp] at h
          | some e =>
            simp only [hp] at h
            injection h with h
            exact ⟨p, e, rfl, hp, h⟩
    · rintro ⟨p, e, hv, hp, hlg⟩
      simp [hv, hp, hlg]
  · intro h
    refine ⟨?_, ?_, ?_⟩
    · unfold GetLogEntry middleware.GetLogEntry
      cases hv : r.Context.Value CtxKey.LogEntryCtxKey with
      | none => rfl
      | some v =>
        cases v with
        | str x => rfl
        | otherLogEntry x => rfl
        | other x => rfl
        | logrEntry p => exact absurd hv (h p)
    · intro key value
      unfold LogEntrySetField
      split
      · rename_i p hp
        exact absurd hp (h p)
      · rfl
    · intro kvs
      unfold LogEntrySetFields
      split
      · rename_i p hp
        exact absurd hp (h p)
      · rfl

/-- Witness of C10: with an entry bound the logger comes back; with nothing bound the
call panics and the setter does not. -/
theorem GetLogEntry_ok_iff_witness :
    GetLogEntry (sampleRequest [] [(CtxKey.LogEntryCtxKey, CtxVal.logrEntry 0)])
        ⟨[⟨⟨[Any.str "uri", Any.str "/"]⟩⟩], [], 0⟩
      = Except.ok ⟨[Any.str "uri", Any.str "/"]⟩
    ∧ GetLogEntry (sampleRequest [] []) ⟨[⟨⟨[Any.str "uri", Any.str "/"]⟩⟩], [], 0⟩
      = Except.error GoPanic.typeAssertion
    ∧ LogEntrySetField (sampleRequest [] []) "user" (Any.str "u1")
        ⟨[⟨⟨[Any.str "uri", Any.str "/"]⟩⟩], [], 0⟩
      = Except.ok ⟨[⟨⟨[Any.str "uri", Any.str "/"]⟩⟩], [], 0⟩ :=
  ⟨((GetLogEntry_ok_iff (sampleRequest [] [(CtxKey.LogEntryCtxKey, CtxVal.logrEntry 0)])
      ⟨[⟨⟨[Any.str "uri", Any.str "/"]⟩⟩], [], 0⟩).1 ⟨[Any.str "uri", Any.str "/"]⟩).2
      ⟨0, ⟨⟨[Any.str "uri", Any.str "/"]⟩⟩, by decide, by decide, rfl⟩,
   ((GetLogEntry_ok_iff (sampleRequest [] [])
      ⟨[⟨⟨[Any.str "uri", Any.str "/"]⟩⟩], [], 0⟩).2
      (by
        intro p
        rw [show (sampleRequest [] []).Context.Value CtxKey.LogEntryCtxKey = none from by decide]
        simp)).1,
   ((GetLogEntry_ok_iff (sampleRequest [] [])
      ⟨[⟨⟨[Any.str "uri", Any.str "/"]⟩⟩], [], 0⟩).2
      (by
        intro p
        rw [show (sampleRequest [] []).Context.Value CtxKey.LogEntryCtxKey = none from by decide]
        simp)).2.1 "user"
      (Any.str "u1")⟩

/-! ## The setters append -/

/-- What `LogEntrySetFields` does to a bound entry, and what a later `Write` emits. -/
theorem LogEntrySetFields_appends (r : Request) (s : World) (p : Ptr) (e : LogrEntry)
    (kvs : List Any)
    (hctx : r.Context.Value CtxKey.LogEntryCtxKey = some (CtxVal.logrEntry p))
    (hp : s.heap[p]? = some e) :
    ∃ s1, LogEntrySetFields r kvs s = Except.ok s1
      ∧ s1.sink = s.sink
      ∧ s1.ulids = s.ulids
      ∧ s1.heap[p]? = some { log := { values := e.log.values ++ kvs } }
      ∧ (∀ q, q ≠ p → s1.heap[q]? = s.heap[q]?)
      ∧ (∀ (status bytes elapsed : Int) (header : Header) (extra : Any),
          ∃ s2, LogrEntry.Write p status bytes header elapsed extra s1 = Except.ok s2
            ∧ s2.sink = s.sink ++
                [{ level := Level.info, msg := "request complete",
                   fields := e.log.values ++ kvs ++
                    [Any.str "resp_status", Any.int status,
                     Any.str "resp_bytes_length", Any.int bytes,
                     Any.str "resp_elapsed_ms",
                     Any.float64
                       (Float64.div (Float64.ofInt elapsed) (Float64.ofInt 1000000))] }]) := by
  refine ⟨_, LogEntrySetFields_eq r s p e kvs hctx hp, rfl, rfl, heap_set_get _ _ _ _ hp,
    fun _ hq => heap_set_other _ _ _ _ hq, ?_⟩
  intro status bytes elapsed header extra
  exact ⟨_,
    Write_eq p { log := { values := e.log.values ++ kvs } } status bytes elapsed header extra
      { heap := s.heap.set p { log := { values := e.log.values ++ kvs } },
        sink := s.sink, ulids := s.ulids }
      (heap_set_get _ _ _ _ hp),
    rfl⟩

/-- C9, the claim as stated fails: `user` is set to `u1` and then to `u2`. The second
call does not replace the first value: the entry, and the completion record of the
`Write` that follows, carry `user = u1` as well as `user = u2`, so the record is not
the one that shows each key once with its latest value. -/
theorem LogEntrySetField_keeps_earlier_value :
    LogEntrySetField (sampleRequest [] [(CtxKey.LogEntryCtxKey, CtxVal.logrEntry 0)])
        "user" (Any.str "u2")
        ⟨[⟨⟨[Any.str "uri", Any.str "/", Any.str "user", Any.str "u1"]⟩⟩], [], 0⟩
      = Except.ok
          ⟨[⟨⟨[Any.str "uri", Any.str "/", Any.str "user", Any.str "u1",
                Any.str "user", Any.str "u2"]⟩⟩], [], 0⟩
    ∧ LogrEntry.Write 0 200 1024 [] 2500000 Any.nil
        ⟨[⟨⟨[Any.str "uri", Any.str "/", Any.str "user", Any.str "u1",
              Any.str "user", Any.str "u2"]⟩⟩], [], 0⟩
      = Except.ok
          ⟨[⟨⟨[Any.str "uri", Any.str "/", Any.str "user", Any.str "u1",
                Any.str "user", Any.str "u2",
                Any.str "resp_status", Any.int 200,
                Any.str "resp_bytes_length", Any.int 1024,
                Any.str "resp_elapsed_ms", Any.float64 ⟨5, -1⟩]⟩⟩],
           [⟨Level.info, "request complete",
              [Any.str "uri", Any.str "/", Any.str "user", Any.str "u1",
                Any.str "user", Any.str "u2",
                Any.str "resp_status", Any.int 200,
                Any.str "resp_bytes_length", Any.int 1024,
                Any.str "resp_elapsed_ms", Any.float64 ⟨5, -1⟩]⟩],
           0⟩
    ∧ [Any.str "uri", Any.str "/", Any.str "user", Any.str "u1",
        Any.str "user", Any.str "u2",
        Any.str "resp_status", Any.int 200,
        Any.str "resp_bytes_length", Any.int 1024,
        Any.str "resp_elapsed_ms", Any.float64 ⟨5, -1⟩]
      ≠ [Any.str "uri", Any.str "/", Any.str "user", Any.str "u2",
          Any.str "resp_status", Any.int 200,
          Any.str "resp_bytes_length", Any.int 1024,
          Any.str "resp_elapsed_ms", Any.float64 ⟨5, -1⟩]
    ∧ Any.str "u1" ∈
        [Any.str "uri", Any.str "/", Any.str "user", Any.str "u1",
          Any.str "user", Any.str "u2",
          Any.str "resp_status", Any.int 200,
          Any.str "resp_bytes_length", Any.int 1024,
          Any.str "resp_elapsed_ms", Any.float64 ⟨5, -1⟩] := by
  refine ⟨rfl, rfl, ?_, ?_⟩ <;> decide

/-- C9, amended. On a request whose context binds an allocated `*LogrEntry`,
`LogEntrySetField(r, key, value)` and `LogEntrySetFields(r, kvs...)` append their
arguments, unchanged and in order, to the keys and values of that entry and hand
nothing to the sink. Everything accumulated before stays where it was (nothing is
removed and nothing is replaced), the new arguments come last, other entries are
untouched, and the record of a later `Write` carries that whole sequence followed by
the three response fields. -/
theorem LogEntrySet_appends (r : Request) (s : World) (p : Ptr) (e : LogrEntry)
    (key : String) (value : Any) (kvs : List Any)
    (hctx : r.Context.Value CtxKey.LogEntryCtxKey = some (CtxVal.logrEntry p))
    (hp : s.heap[p]? = some e) :
    (∃ s1, LogEntrySetField r key value s = Except.ok s1
      ∧ s1.sink = s.sink
      ∧ s1.ulids = s.ulids
      ∧ s1.heap[p]? = some { log := { values := e.log.values ++ [Any.str key, value] } }
      ∧ (∀ q, q ≠ p → s1.heap[q]? = s.heap[q]?)
      ∧ (∀ (status bytes elapsed : Int) (header : Header) (extra : Any),
          ∃ s2, LogrEntry.Write p status bytes header elapsed extra s1 = Except.ok s2
            ∧ s2.sink = s.sink ++
                [{ level := Level.info, msg := "request complete",
                   fields := e.log.values ++ [Any.str key, value] ++
                    [Any.str "resp_status", Any.int status,
                     Any.str "resp_bytes_length", Any.int bytes,
                     Any.str "resp_elapsed_ms",
                     Any.float64
                       (Float64.div (Float64.ofInt elapsed) (Float64.ofInt 1000000))] }]))
    ∧ (∃ s1, LogEntrySetFields r kvs s = Except.ok s1
      ∧ s1.sink = s.sink
      ∧ s1.ulids = s.ulids
      ∧ s1.heap[p]? = some { log := { values := e.log.values ++ kvs } }
      ∧ (∀ q, q ≠ p → s1.heap[q]? = s.heap[q]?)
      ∧ (∀ (status bytes elapsed : Int) (header : Header) (extra : Any),
          ∃ s2, LogrEntry.Write p status bytes header elapsed extra s1 = Except.ok s2
            ∧ s2.sink = s.sink ++
                [{ level := Level.info, msg := "request complete",
                   fields := e.log.values ++ kvs ++
                    [Any.str "resp_status", Any.int status,
                     Any.str "resp_bytes_length", Any.int bytes,
                     Any.str "resp_elapsed_ms",
                     Any.float64
                       (Float64.div (Float64.ofInt elapsed) (Float64.ofInt 1000000))] }])) :=
  ⟨LogEntrySetFields_appends r s p e [Any.str key, value] hctx hp,
    LogEntrySetFields_appends r s p e kvs hctx hp⟩

/-- Witness of C9: `user` is set a second time on the entry bound in the context, and
`LogEntrySetFields` is given a key without a value; both calls only append, and
nothing is logged. -/
theorem LogEntrySet_appends_witness :
    (∃ s1, LogEntrySetField (sampleRequest [] [(CtxKey.LogEntryCtxKey, CtxVal.logrEntry 0)])
          "user" (Any.str "u2")
          ⟨[⟨⟨[Any.str "uri", Any.str "/", Any.str "user", Any.str "u1"]⟩⟩], [], 0⟩
        = Except.ok s1
      ∧ s1.sink = []
      ∧ s1.heap[0]? = some ⟨⟨[Any.str "uri", Any.str "/", Any.str "user", Any.str "u1",
          Any.str "user", Any.str "u2"]⟩⟩)
    ∧ (∃ s1, LogEntrySetFields (sampleRequest [] [(CtxKey.LogEntryCtxKey, CtxVal.logrEntry 0)])
          [Any.str "orphan"]
          ⟨[⟨⟨[Any.str "uri", Any.str "/", Any.str "user", Any.str "u1"]⟩⟩], [], 0⟩
        = Except.ok s1
      ∧ s1.sink = []
      ∧ s1.heap[0]? = some ⟨⟨[Any.str "uri", Any.str "/", Any.str "user", Any.str "u1",
          Any.str "orphan"]⟩⟩) := by
  obtain ⟨⟨s1, h1, h2, _, h4, _⟩, ⟨t1, g1, g2, _, g4, _⟩⟩ :=
    LogEntrySet_appends (sampleRequest [] [(CtxKey.LogEntryCtxKey, CtxVal.logrEntry 0)])
      ⟨[⟨⟨[Any.str "uri", Any.str "/", Any.str "user", Any.str "u1"]⟩⟩], [], 0⟩ 0
      ⟨⟨[Any.str "uri", Any.str "/", Any.str "user", Any.str "u1"]⟩⟩ "user" (Any.str "u2")
      [Any.str "orphan"] (by decide) (by decide)
  exact ⟨⟨s1, h1, h2, h4⟩, ⟨t1, g1, g2, g4⟩⟩

/-! ## Package `logr`: the start of a request -/

theorem middleware_GetReqID_eq (ctx : Option Context) :
    middleware.GetReqID ctx = GetReqID ctx := rfl

/-- C8, the claim as stated fails: a logger that was given `app = api` before starts
a request with a record, and an entry, that carry `app = api` in front of the fields
`NewLogEntry` builds, so the record is not the one with exactly the built fields. -/
theorem NewLogEntry_keeps_logger_values :
    Logger.NewLogEntry ipv4Net "2026-11-04T10:00:00Z"
        { log := ⟨[Any.str "app", Any.str "api"]⟩, geodb := none } (sampleRequest [] [])
        ⟨[], [], 0⟩
      = (0,
          ⟨[⟨⟨[Any.str "app", Any.str "api",
                Any.str "ts", Any.str "2026-11-04T10:00:00Z",
                Any.str "http_scheme", Any.str "http",
                Any.str "http_proto", Any.str "HTTP/1.1",
                Any.str "http_method", Any.str "GET",
                Any.str "remote_addr", Any.str "10.0.0.9:51000",
                Any.str "user_agent", Any.str "",
                Any.str "uri", Any.str "http://example.com/a?b=1"]⟩⟩],
           [⟨Level.info, "request started",
              [Any.str "app", Any.str "api",
                Any.str "ts", Any.str "2026-11-04T10:00:00Z",
                Any.str "http_scheme", Any.str "http",
                Any.str "http_proto", Any.str "HTTP/1.1",
                Any.str "http_method", Any.str "GET",
                Any.str "remote_addr", Any.str "10.0.0.9:51000",
                Any.str "user_agent", Any.str "",
                Any.str "uri", Any.str "http://example.com/a?b=1"]⟩],
           0⟩)
    ∧ (Logger.NewLogEntry ipv4Net "2026-11-04T10:00:00Z"
        { log := ⟨[Any.str "app", Any.str "api"]⟩, geodb := none } (sampleRequest [] [])
        ⟨[], [], 0⟩).2.sink
      ≠ [⟨Level.info, "request started",
            [Any.str "ts", Any.str "2026-11-04T10:00:00Z",
              Any.str "http_scheme", Any.str "http",
              Any.str "http_proto", Any.str "HTTP/1.1",
              Any.str "http_method", Any.str "GET",
              Any.str "remote_addr", Any.str "10.0.0.9:51000",
              Any.str "user_agent", Any.str "",
              Any.str "uri", Any.str "http://example.com/a?b=1"]⟩] := by
  constructor <;> decide

/-- C8, amended. `NewLogEntry` builds the list `ts`, `req_id` (present exactly when
the request identifier of the context is not empty, and then equal to it),
`http_scheme` ("https" exactly when the request has TLS state, "http" otherwise),
`http_proto`, `http_method`, the `appendGeoData` fields, `user_agent`, `uri`
(scheme, "://", host, request URI, with the same scheme), in this order. It allocates
an entry whose list is the keys and values the configured logger already held
followed by that list, hands exactly one record to the sink (level info, message
"request started", the same combined list), and returns the address of the entry. -/
theorem NewLogEntry_fields (net : NetLib) (now : String) (l : Logger) (r : Request)
    (s : World) :
    ∃ fields : List Any,
      fields =
        [Any.str "ts", Any.str now]
          ++ (if GetReqID (some r.Context) ≠ "" then
                [Any.str "req_id", Any.str (GetReqID (some r.Context))] else [])
          ++ [Any.str "http_scheme", Any.str (if r.TLS.isSome then "https" else "http"),
              Any.str "http_proto", Any.str r.Proto,
              Any.str "http_method", Any.str r.Method]
          ++ appendGeoData net [] r l.geodb
          ++ [Any.str "user_agent", Any.str r.UserAgent,
              Any.str "uri",
              Any.str ((if r.TLS.isSome then "https" else "http") ++ "://" ++ r.Host
                ++ r.RequestURI)]
      ∧ Logger.NewLogEntry net now l r s
          = (s.heap.length,
              { heap := s.heap ++ [{ log := { values := l.log.values ++ fields } }],
                sink := s.sink ++
                  [{ level := Level.info, msg := "request started",
                     fields := l.log.values ++ fields }],
                ulids := s.ulids })
      ∧ (Logger.NewLogEntry net now l r s).2.heap[(Logger.NewLogEntry net now l r s).1]?
          = some { log := { values := l.log.values ++ fields } } := by
  have main : ∃ fields : List Any,
      fields =
        [Any.str "ts", Any.str now]
          ++ (if GetReqID (some r.Context) ≠ "" then
                [Any.str "req_id", Any.str (GetReqID (some r.Context))] else [])
          ++ [Any.str "http_scheme", Any.str (if r.TLS.isSome then "https" else "http"),
              Any.str "http_proto", Any.str r.Proto,
              Any.str "http_method", Any.str r.Method]
          ++ appendGeoData net [] r l.geodb
          ++ [Any.str "user_agent", Any.str r.UserAgent,
              Any.str "uri",
              Any.str ((if r.TLS.isSome then "https" else "http") ++ "://" ++ r.Host
                ++ r.RequestURI)]
      ∧ Logger.NewLogEntry net now l r s
          = (s.heap.length,
              { heap := s.heap ++ [{ log := { values := l.log.values ++ fields } }],
                sink := s.sink ++
                  [{ level := Level.info, msg := "request started",
                     fields := l.log.values ++ fields }],
                ulids := s.ulids }) := by
    refine ⟨_, rfl, ?_⟩
    unfold Logger.NewLogEntry
    simp only [middleware_GetReqID_eq]
    rw [appendGeoData_append]
    cases hT : r.TLS <;> by_cases hid : GetReqID (some r.Context) = "" <;>
      simp [hid, LogrLogger.WithValues, LogrLogger.Info]
  obtain ⟨fields, hf, hrun⟩ := main
  refine ⟨fields, hf, hrun, ?_⟩
  rw [hrun]
  simp

end Middlewares
